import Mathlib

/-!
Verification development for the eliquious/lexer repository (a Go lexical
scanner).  The Go sources (scanner.go, tokens.go, buffer.go) are shallowly
embedded below: the stateful rune reader becomes explicit state passing over
a `Reader` structure, the scanner routines become pure functions returning a
`ScanRes`, and the token-replay buffer becomes a pure transition function.
Helper code referenced by scanner.go but not present in the provided sources
(the rune reader, the character classes, the bare-identifier and
quoted-string helpers, and the NUMBER and DURATION_VAL token constants) is
modelled from the specification; each such definition is marked.
-/

set_option maxHeartbeats 1000000

/-- Pos specifies the line and character position of a token (tokens.go).
Line and Char are zero-based. -/
structure Pos where
  line : Nat
  char : Nat
deriving DecidableEq, Repr

/-- Token represents each lexer symbol (tokens.go: type Token int). -/
abbrev Token := Nat

namespace Tok

/-- Token enums, numbered exactly as the iota block of tokens.go. -/
def ILLEGAL : Token := 0

def EOF : Token := 1

def WS : Token := 2

def LPAREN : Token := 3

def RPAREN : Token := 4

def LBRACKET : Token := 5

def RBRACKET : Token := 6

def LCURLY : Token := 7

def RCURLY : Token := 8

def COMMA : Token := 9

def SEMICOLON : Token := 10

def COLON : Token := 11

def DOT : Token := 12

def SINGLEQUOTE : Token := 13

def DOUBLEQUOTE : Token := 14

def PERCENT : Token := 15

def DOLLAR : Token := 16

def HASH : Token := 17

def ATSIGN : Token := 18

def startLiterals : Token := 19

def IDENT : Token := 20

def INTEGER : Token := 21

def DECIMAL : Token := 22

def STRING : Token := 23

def BADSTRING : Token := 24

def BADESCAPE : Token := 25

def TRUE : Token := 26

def FALSE : Token := 27

def REGEX : Token := 28

def BADREGEX : Token := 29

def DURATION : Token := 30

def endLiterals : Token := 31

def startOperators : Token := 32

def PLUS : Token := 33

def MINUS : Token := 34

def MUL : Token := 35

def DIV : Token := 36

def AMPERSAND : Token := 37

def XOR : Token := 38

def PIPE : Token := 39

def LSHIFT : Token := 40

def RSHIFT : Token := 41

def POW : Token := 42

def ARROW : Token := 43

def EQARROW : Token := 44

def AND : Token := 45

def OR : Token := 46

def EQ : Token := 47

def NEQ : Token := 48

def EQREGEX : Token := 49

def NEQREGEX : Token := 50

def LT : Token := 51

def LTE : Token := 52

def GT : Token := 53

def GTE : Token := 54

def endOperators : Token := 55

/-- Modelled from the spec: the scanner (scanner.go) returns NUMBER and
DURATION_VAL token kinds whose constant declarations are not among the
provided sources; they are literal kinds distinct from every built-in
constant above. -/
def NUMBER : Token := 100

/-- Modelled from the spec: duration literal token kind used by scanNumber;
see NUMBER. -/
def DURATION_VAL : Token := 101

end Tok

/-- Modelled from the spec: the designated end-of-stream sentinel rune
(scanner.go compares runes against an `eof` constant defined in a source
file that is not provided; the spec calls it a designated sentinel). -/
def eofRune : Char := Char.ofNat 0

/-- Modelled from the spec: isWhitespace returns true for the whitespace
characters coalesced by the scanner (space, tab, newline). -/
def isWhitespace (c : Char) : Bool :=
  c = ' ' ∨ c = '\t' ∨ c = '\n'

/-- Modelled from the spec: isLetter recognizes ASCII letters. -/
def isLetter (c : Char) : Bool :=
  ('a' ≤ c ∧ c ≤ 'z') ∨ ('A' ≤ c ∧ c ≤ 'Z')

/-- Modelled from the spec: isDigit recognizes decimal digits. -/
def isDigit (c : Char) : Bool :=
  '0' ≤ c ∧ c ≤ '9'

/-- Modelled from the spec: identifier-legal characters are letters, digits
and underscore. -/
def isIdentChar (c : Char) : Bool :=
  isLetter c ∨ isDigit c ∨ c = '_'

/-- Modelled from the spec: the pushback-capable rune reader.  The input is
the full character stream; idx counts the runes logically consumed (it may
pass the end of input, so that a pushed-back end-of-stream sentinel is
re-exposed to the next read, as with the circular read buffer of the Go
reader). -/
structure Reader where
  input : List Char
  idx : Nat
deriving DecidableEq, Repr

/-- Modelled from the spec: the character a read() would return: the next
unconsumed rune, or the sentinel once the source is exhausted. -/
def readChar (r : Reader) : Char :=
  (r.input.drop r.idx).headD eofRune

/-- Modelled from the spec: position bookkeeping.  Advancing over a newline
resets char and increments line; any other rune increments char. -/
def advancePos (p : Pos) (c : Char) : Pos :=
  if c = '\n' then ⟨p.line + 1, 0⟩ else ⟨p.line, p.char + 1⟩

/-- Position of the i-th rune of the input (or of end of stream). -/
def posAt (input : List Char) (i : Nat) : Pos :=
  (input.take i).foldl advancePos ⟨0, 0⟩

/-- Position a read() would attach to the rune it returns. -/
def readPos (r : Reader) : Pos :=
  posAt r.input r.idx

/-- Modelled from the spec: consuming one rune. -/
def bump (r : Reader) : Reader :=
  ⟨r.input, r.idx + 1⟩

/-- Modelled from the spec: unread() pushes the most recently read rune back
onto the reader. -/
def unread (r : Reader) : Reader :=
  ⟨r.input, r.idx - 1⟩

/-- Modelled from the spec: the rune part of curr(), the last rune returned
by read().  Before any read the Go reader buffer holds zero values, whose
rune part coincides with the sentinel. -/
def currChar (r : Reader) : Char :=
  if r.idx = 0 then eofRune else (r.input.drop (r.idx - 1)).headD eofRune

/-- Modelled from the spec: the position part of curr(). -/
def currPos (r : Reader) : Pos :=
  if r.idx = 0 then ⟨0, 0⟩ else posAt r.input (r.idx - 1)

/-- Reader over a whole input, nothing consumed yet. -/
def mkReader (s : String) : Reader :=
  ⟨s.data, 0⟩

/-- Result of one scan: the (token, position, literal) triple returned by
Scan together with the final reader state. -/
structure ScanRes where
  tok : Token
  pos : Pos
  lit : String
  rd : Reader
deriving DecidableEq, Repr

/-- Keyword table: process-wide mapping from lower-cased name to token kind
(tokens.go: var keywords map[string]Token). -/
def KwTable := String → Option Token

/-- Modelled after strings.ToLower restricted to ASCII (the spec's scope;
keywords are ASCII). -/
def strToLower (s : String) : String :=
  ⟨s.data.map Char.toLower⟩

/-- Lookup returns the token associated with a given string (tokens.go). -/
def Lookup (kw : KwTable) (ident : String) : Token :=
  match kw (strToLower ident) with
  | some tok => tok
  | none => Tok.IDENT

/-- Built-in keyword table seeded by the init block of tokens.go. -/
def keywords0 : KwTable := fun s =>
  if s = "and" then some Tok.AND
  else if s = "or" then some Tok.OR
  else if s = "true" then some Tok.TRUE
  else if s = "false" then some Tok.FALSE
  else none

/-- A non-sentinel read means the reader had not reached end of input. -/
theorem readChar_ne_eof_lt {r : Reader} (h : readChar r ≠ eofRune) :
    r.idx < r.input.length := by
  by_contra hle
  apply h
  unfold readChar
  rw [List.drop_eq_nil_of_le (by omega)]
  rfl

/-- Digits are not the end-of-stream sentinel. -/
theorem isDigit_ne_eof {c : Char} (h : isDigit c) : c ≠ eofRune := by
  intro he
  subst he
  exact absurd h (by decide)

/-- Whitespace characters are not the end-of-stream sentinel. -/
theorem isWhitespace_ne_eof {c : Char} (h : isWhitespace c) : c ≠ eofRune := by
  intro he
  subst he
  exact absurd h (by decide)

/-- Identifier characters are not the end-of-stream sentinel. -/
theorem isIdentChar_ne_eof {c : Char} (h : isIdentChar c) : c ≠ eofRune := by
  intro he
  subst he
  exact absurd h (by decide)

/-- scanDigits consumes a contiguous series of digits (scanner.go): read a
rune; a non-digit is unread and stops the loop, a digit is appended. -/
def scanDigitsAux (r : Reader) (buf : String) : String × Reader :=
  let ch := readChar r
  if isDigit ch then scanDigitsAux (bump r) (buf.push ch)
  else (buf, unread (bump r))
termination_by r.input.length - r.idx
decreasing_by
  have := readChar_ne_eof_lt (isDigit_ne_eof (by assumption))
  simp [bump]
  omega

/-- scanDigits of scanner.go. -/
def scanDigits (r : Reader) : String × Reader :=
  scanDigitsAux r ""

/-- Modelled from the spec: ScanBareIdent (a helper not among the provided
sources) accumulates the maximal run of identifier-legal characters. -/
def ScanBareIdent (r : Reader) : String × Reader :=
  let run := (r.input.drop r.idx).takeWhile isIdentChar
  (⟨run⟩, ⟨r.input, r.idx + run.length⟩)

/-- Error values of the quoted-string helper (errBadString / errBadEscape,
not among the provided sources). -/
inductive StrErr where
  | badString
  | badEscape
deriving DecidableEq, Repr

/-- Modelled from the spec: body loop of the quoted-string helper.  A rune
equal to the opening delimiter ends the literal; end of stream before the
closing delimiter is an unterminated literal (BADSTRING); a backslash must
be followed by a quote character, any other escape is a BADESCAPE whose
literal holds the content accumulated so far. -/
def scanStringBody (r : Reader) (ending : Char) (buf : String) :
    String × Option StrErr × Reader :=
  let ch := readChar r
  if ch = ending then (buf, none, bump r)
  else if ch = eofRune then (buf, some .badString, bump r)
  else if ch = '\\' then
    let ch1 := readChar (bump r)
    if ch1 = '\'' ∨ ch1 = '"' then
      scanStringBody (bump (bump r)) ending (buf.push ch1)
    else (buf, some .badEscape, bump (bump r))
  else scanStringBody (bump r) ending (buf.push ch)
termination_by r.input.length - r.idx
decreasing_by
  · have := readChar_ne_eof_lt (r := r) (by assumption)
    simp [bump]
    omega
  · have := readChar_ne_eof_lt (r := r) (by assumption)
    simp [bump]
    omega

/-- Modelled from the spec: ScanString reads the opening delimiter rune and
then the delimited body. -/
def ScanString (r : Reader) : String × Option StrErr × Reader :=
  let ending := readChar r
  if ending = eofRune then ("", some .badString, bump r)
  else scanStringBody (bump r) ending ""

/-- scanString of scanner.go: consumes a contiguous string of non-quote
characters (quote characters can appear escaped), via the ScanString
helper.  On errBadString the position is the one saved before the scan; on
errBadEscape the position is re-read from curr() after the failure. -/
def scanString (r : Reader) : ScanRes :=
  let r0 := unread r
  let pos := currPos r0
  let out := ScanString r0
  match out.2.1 with
  | some .badString => ⟨Tok.BADSTRING, pos, out.1, out.2.2⟩
  | some .badEscape => ⟨Tok.BADESCAPE, currPos out.2.2, out.1, out.2.2⟩
  | none => ⟨Tok.STRING, pos, out.1, out.2.2⟩

/-- scanWhitespace loop of scanner.go: read every subsequent whitespace
character into the buffer; non-whitespace characters are unread and stop
the loop, end of stream stops it directly. -/
def scanWhitespaceAux (r : Reader) (buf : String) : String × Reader :=
  let ch := readChar r
  if ch = eofRune then (buf, bump r)
  else if ¬ isWhitespace ch then (buf, unread (bump r))
  else scanWhitespaceAux (bump r) (buf.push ch)
termination_by r.input.length - r.idx
decreasing_by
  have := readChar_ne_eof_lt (r := r) (by assumption)
  simp [bump]
  omega

/-- scanWhitespace of scanner.go: the current rune and all contiguous
whitespace after it become one WS token. -/
def scanWhitespace (r : Reader) : ScanRes :=
  let out := scanWhitespaceAux r (String.singleton (currChar r))
  ⟨Tok.WS, currPos r, out.1, out.2⟩

/-- Outcome of the accumulation loop of scanIdent: either an early return
(the quoted-identifier and error paths) or the accumulated bare text. -/
inductive IdentStep where
  | ret : ScanRes → IdentStep
  | done : String → Reader → IdentStep
deriving DecidableEq, Repr

/-- Splitting the unconsumed part of a reader that is not at end of
input into its head rune and the rest. -/
theorem drop_eq_readChar_cons {r : Reader} (h : r.idx < r.input.length) :
    r.input.drop r.idx = readChar r :: r.input.drop (r.idx + 1) := by
  rcases hd : r.input.drop r.idx with _ | ⟨c, tl⟩
  · have hlen := congrArg List.length hd
    simp at hlen
    omega
  · have h3 := List.drop_drop 1 r.idx r.input
    rw [hd] at h3
    simp only [List.drop_succ_cons, List.drop_zero, Nat.add_comm 1 r.idx] at h3
    rw [← h3]
    have hc : readChar r = c := by
      unfold readChar
      rw [hd]
      rfl
    rw [hc]

/-- A bare-identifier scan starting on an identifier character makes
strict progress. -/
theorem ScanBareIdent_progress {r : Reader}
    (h : isIdentChar (readChar r) = true) :
    (ScanBareIdent r).2.input = r.input ∧ r.idx < (ScanBareIdent r).2.idx := by
  refine ⟨rfl, ?_⟩
  have hlt := readChar_ne_eof_lt (isIdentChar_ne_eof h)
  show r.idx < r.idx + ((r.input.drop r.idx).takeWhile isIdentChar).length
  rw [drop_eq_readChar_cons hlt, List.takeWhile_cons_of_pos h]
  simp

/-- Accumulation loop of scanIdent (scanner.go): end of stream stops it; a
double quote delegates to string scanning, propagating BADSTRING and
BADESCAPE verbatim and otherwise reinterpreting the result as an IDENT
whose literal is the quoted content; an identifier character is unread and
the maximal bare run is appended; anything else is unread and stops the
loop. -/
def scanIdentAux (pos : Pos) (r : Reader) (buf : String) : IdentStep :=
  if readChar r = eofRune then .done buf (bump r)
  else if readChar r = '"' then
    let res := scanString (bump r)
    if res.tok = Tok.BADSTRING ∨ res.tok = Tok.BADESCAPE then .ret res
    else .ret ⟨Tok.IDENT, pos, res.lit, res.rd⟩
  else if isIdentChar (readChar r) then
    scanIdentAux pos (ScanBareIdent (unread (bump r))).2
      (buf ++ (ScanBareIdent (unread (bump r))).1)
  else .done buf (unread (bump r))
termination_by r.input.length - r.idx
decreasing_by
  rename_i hne hq hid
  have hpr := ScanBareIdent_progress (r := unread (bump r)) hid
  have hlt : r.idx < r.input.length := readChar_ne_eof_lt hne
  have h3 : (unread (bump r)).idx = r.idx := rfl
  have h4 : (unread (bump r)).input = r.input := rfl
  rw [h3, h4] at hpr
  have h5 : (ScanBareIdent (unread (bump r))).2.input = r.input := hpr.1
  have h6 : r.idx < (ScanBareIdent (unread (bump r))).2.idx := hpr.2
  simp only [h5]
  omega

/-- scanIdent of scanner.go: note the starting position, run the
accumulation loop, then look the accumulated text up in the keyword table:
a keyword match returns that kind with empty literal, otherwise IDENT with
the text as literal. -/
def scanIdent (kw : KwTable) (r : Reader) : ScanRes :=
  let pos := readPos r
  match scanIdentAux pos r "" with
  | .ret res => res
  | .done lit r' =>
    let tok := Lookup kw lit
    if tok ≠ Tok.IDENT then ⟨tok, pos, "", r'⟩
    else ⟨Tok.IDENT, pos, lit, r'⟩

/-- Whether a string contains a rune (strings.Contains with a one-rune
needle, as used by scanNumber). -/
def strContains (s : String) (c : Char) : Bool :=
  s.data.contains c

/-- Tail of scanNumber (scanner.go) after the sign and full-stop dispatch:
read as many digits as possible, optionally a full stop followed by a digit
and more digits (otherwise both runes are pushed back), then, only when the
literal has no full stop, try the duration unit suffixes: u, micro sign, s,
h, d, w directly, and m with an optional following s; a recognized unit
yields DURATION_VAL, anything else is pushed back and the token is
NUMBER. -/
def scanNumberTail (pos : Pos) (buf : String) (r : Reader) : ScanRes :=
  let d0 := scanDigits r
  let buf1 := buf ++ d0.1
  let r1 := d0.2
  let ch0 := readChar r1
  let frac :=
    if ch0 = '.' then
      let ch1 := readChar (bump r1)
      if isDigit ch1 then
        let d1 := scanDigits (bump (bump r1))
        ((buf1.push ch0).push ch1 ++ d1.1, d1.2)
      else (buf1, unread (unread (bump (bump r1))))
    else (buf1, unread (bump r1))
  let buf2 := frac.1
  let r2 := frac.2
  if ¬ strContains buf2 '.' then
    let chd := readChar r2
    if chd = 'u' ∨ chd = 'µ' ∨ chd = 's' ∨ chd = 'h' ∨ chd = 'd' ∨ chd = 'w'
    then ⟨Tok.DURATION_VAL, pos, buf2.push chd, bump r2⟩
    else if chd = 'm' then
      let ch1 := readChar (bump r2)
      if ch1 = 's' then
        ⟨Tok.DURATION_VAL, pos, (buf2.push chd).push ch1, bump (bump r2)⟩
      else ⟨Tok.DURATION_VAL, pos, buf2.push chd, unread (bump (bump r2))⟩
    else ⟨Tok.NUMBER, pos, buf2, unread (bump r2)⟩
  else ⟨Tok.NUMBER, pos, buf2, r2⟩

/-- scanNumber of scanner.go: a + or - trigger peeks two runes ahead and
proceeds as a number only when followed by a digit or by a full stop and a
digit, returning the bare PLUS or MINUS operator otherwise; a full-stop
trigger demands a following digit (ILLEGAL otherwise) and unreads the full
stop; a digit trigger is unread; then the common tail runs. -/
def scanNumber (r : Reader) : ScanRes :=
  let ch := currChar r
  let pos := currPos r
  if ch = '+' ∨ ch = '-' then
    let ch1 := readChar r
    let ch2 := readChar (bump r)
    let rb := unread (unread (bump (bump r)))
    if isDigit ch1 ∨ (ch1 = '.' ∧ isDigit ch2) then
      scanNumberTail pos (String.singleton ch) rb
    else if ch = '+' then ⟨Tok.PLUS, pos, "", rb⟩
    else ⟨Tok.MINUS, pos, "", rb⟩
  else if ch = '.' then
    let ch1 := readChar r
    let rb := unread (bump r)
    if ¬ isDigit ch1 then ⟨Tok.ILLEGAL, pos, ".", rb⟩
    else scanNumberTail pos "" (unread rb)
  else
    scanNumberTail pos "" (unread r)

/-- Scan of scanner.go: the main dispatch.  Whitespace, identifiers and
quoted identifiers, numbers, strings, the end-of-stream sentinel, and the
fixed table of single- and double-character punctuation and operator
tokens; unmatched runes produce ILLEGAL with the offending rune as
literal. -/
def Scan (kw : KwTable) (r : Reader) : ScanRes :=
  let ch0 := readChar r
  let pos := readPos r
  let r1 := bump r
  if isWhitespace ch0 then scanWhitespace r1
  else if isLetter ch0 ∨ ch0 = '_' then scanIdent kw r
  else if isDigit ch0 then scanNumber r1
  else if ch0 = eofRune then ⟨Tok.EOF, pos, "", r1⟩
  else if ch0 = '"' then scanIdent kw r
  else if ch0 = '\'' then scanString r1
  else if ch0 = '.' then
    let ch1 := readChar r1
    let rb := unread (bump r1)
    if isDigit ch1 then scanNumber rb else ⟨Tok.DOT, pos, "", rb⟩
  else if ch0 = '+' ∨ ch0 = '-' then scanNumber r1
  else if ch0 = '*' then ⟨Tok.MUL, pos, "", r1⟩
  else if ch0 = '/' then ⟨Tok.DIV, pos, "", r1⟩
  else if ch0 = '=' then
    (if readChar r1 = '~' then ⟨Tok.EQREGEX, pos, "", bump r1⟩
     else ⟨Tok.EQ, pos, "", unread (bump r1)⟩)
  else if ch0 = '!' then
    let ch1 := readChar r1
    if ch1 = '=' then ⟨Tok.NEQ, pos, "", bump r1⟩
    else if ch1 = '~' then ⟨Tok.NEQREGEX, pos, "", bump r1⟩
    else ⟨Tok.ILLEGAL, pos, String.singleton ch0, unread (bump r1)⟩
  else if ch0 = '>' then
    let ch1 := readChar r1
    if ch1 = '=' then ⟨Tok.GTE, pos, "", bump r1⟩
    else if ch1 = '>' then ⟨Tok.RSHIFT, pos, "", bump r1⟩
    else ⟨Tok.GT, pos, "", unread (bump r1)⟩
  else if ch0 = '<' then
    let ch1 := readChar r1
    if ch1 = '=' then ⟨Tok.LTE, pos, "", bump r1⟩
    else if ch1 = '>' then ⟨Tok.NEQ, pos, "", bump r1⟩
    else if ch1 = '<' then ⟨Tok.LSHIFT, pos, "", bump r1⟩
    else ⟨Tok.LT, pos, "", unread (bump r1)⟩
  else if ch0 = '(' then ⟨Tok.LPAREN, pos, "", r1⟩
  else if ch0 = ')' then ⟨Tok.RPAREN, pos, "", r1⟩
  else if ch0 = '[' then ⟨Tok.LBRACKET, pos, "", r1⟩
  else if ch0 = ']' then ⟨Tok.RBRACKET, pos, "", r1⟩
  else if ch0 = '{' then ⟨Tok.LCURLY, pos, "", r1⟩
  else if ch0 = '}' then ⟨Tok.RCURLY, pos, "", r1⟩
  else if ch0 = ',' then ⟨Tok.COMMA, pos, "", r1⟩
  else if ch0 = ';' then ⟨Tok.SEMICOLON, pos, "", r1⟩
  else if ch0 = ':' then ⟨Tok.COLON, pos, "", r1⟩
  else if ch0 = '^' then ⟨Tok.XOR, pos, "", r1⟩
  else if ch0 = '|' then ⟨Tok.PIPE, pos, "", r1⟩
  else if ch0 = '&' then ⟨Tok.AMPERSAND, pos, "", r1⟩
  else if ch0 = '%' then ⟨Tok.PERCENT, pos, "", r1⟩
  else if ch0 = '$' then ⟨Tok.DOLLAR, pos, "", r1⟩
  else if ch0 = '#' then ⟨Tok.HASH, pos, "", r1⟩
  else if ch0 = '@' then ⟨Tok.ATSIGN, pos, "", r1⟩
  else ⟨Tok.ILLEGAL, pos, String.singleton ch0, r1⟩

/-- Rendering table of tokens.go (var tokens), as an association list. -/
def tokensList : List (Token × String) :=
  [(Tok.ILLEGAL, "ILLEGAL"), (Tok.EOF, "EOF"), (Tok.WS, "WS"),
   (Tok.LPAREN, "("), (Tok.RPAREN, ")"), (Tok.LBRACKET, "["),
   (Tok.RBRACKET, "]"), (Tok.LCURLY, "\x7b"), (Tok.RCURLY, "\x7d"),
   (Tok.COMMA, ","), (Tok.SEMICOLON, ";"), (Tok.COLON, ":"),
   (Tok.DOT, "."), (Tok.SINGLEQUOTE, "'"), (Tok.DOUBLEQUOTE, "\""),
   (Tok.PERCENT, "%%"), (Tok.DOLLAR, "$"), (Tok.HASH, "#"),
   (Tok.ATSIGN, "@"), (Tok.IDENT, "IDENT"), (Tok.INTEGER, "INTEGER"),
   (Tok.DECIMAL, "DECIMAL"), (Tok.STRING, "TEXTUAL"),
   (Tok.DURATION, "DURATION"), (Tok.BADSTRING, "BADSTRING"),
   (Tok.BADESCAPE, "BADESCAPE"), (Tok.REGEX, "REGEX"),
   (Tok.BADREGEX, "BADREGEX"), (Tok.PLUS, "+"), (Tok.MINUS, "-"),
   (Tok.MUL, "*"), (Tok.DIV, "/"), (Tok.AMPERSAND, "&"), (Tok.XOR, "^"),
   (Tok.PIPE, "|"), (Tok.RSHIFT, ">>"), (Tok.LSHIFT, "<<"),
   (Tok.POW, "**"), (Tok.ARROW, "->"), (Tok.EQARROW, "=>"),
   (Tok.AND, "AND"), (Tok.OR, "OR"), (Tok.TRUE, "true"),
   (Tok.FALSE, "false"), (Tok.EQ, "="), (Tok.NEQ, "!="),
   (Tok.EQREGEX, "=~"), (Tok.NEQREGEX, "!~"), (Tok.LT, "<"),
   (Tok.LTE, "<="), (Tok.GT, ">"), (Tok.GTE, ">=")]

/-- Rendering table as a map. -/
def tokens0 : Token → Option String := fun t =>
  (tokensList.find? (fun p => p.1 == t)).map (fun p => p.2)

/-- The two process-wide mutable tables of tokens.go. -/
structure Tables where
  tokens : Token → Option String
  keywords : KwTable

/-- Initial tables: rendering table plus built-in keywords. -/
def tables0 : Tables :=
  ⟨tokens0, keywords0⟩

/-- LoadTokenMap of tokens.go: merge the supplied mapping into the
rendering table, then register every display string, lower-cased, in the
keyword table. -/
def LoadTokenMap (m : List (Token × String)) (t : Tables) : Tables :=
  ⟨m.foldl (fun f p => fun tk => if tk = p.1 then some p.2 else f tk) t.tokens,
   m.foldl (fun f p => fun s => if s = strToLower p.2 then some p.1 else f s)
     t.keywords⟩

/-- One buffered (token, position, literal) triple of the TokenBuffer
(buffer.go). -/
structure Entry where
  tok : Token
  pos : Pos
  lit : String
deriving DecidableEq, Repr

/-- Zero value of a buffer slot. -/
def entry0 : Entry :=
  ⟨Tok.ILLEGAL, ⟨0, 0⟩, ""⟩

/-- Capacity of the TokenBuffer's circular array (buffer.go: buf [6]...). -/
def bufCap : Nat := 6

/-- TokenBuffer state (buffer.go): write index i, pending replay count n,
and the circular buffer, modelled as a function read modulo bufCap. -/
structure TokBuf where
  i : Nat
  n : Nat
  buf : Nat → Entry

/-- A fresh TokenBuffer: Go zero values. -/
def freshTB : TokBuf :=
  ⟨0, 0, fun _ => entry0⟩

/-- Current of buffer.go: the last read token, found n slots behind the
write index.  Go computes (i - n + 6) %% 6 over ints; with n bounded by the
capacity this is the same as the Nat expression below. -/
def Current (s : TokBuf) : Entry :=
  s.buf ((s.i + bufCap - s.n) % bufCap)

/-- ScanFunc of buffer.go.  The underlying scanner is abstracted as the
stream u of triples it would produce, together with the count c of triples
produced so far (the scanner is deterministic, so invoking it a c-th time
returns u c).  If replays are pending, the pending count is decremented and
the buffered triple returned without touching the underlying scanner;
otherwise the write index advances, the scanner's next triple is stored
there, and returned. -/
def ScanFunc (u : Nat → Entry) (s : TokBuf) (c : Nat) : Entry × TokBuf × Nat :=
  if 0 < s.n then
    let s' : TokBuf := ⟨s.i, s.n - 1, s.buf⟩
    (Current s', s', c)
  else
    let i' := (s.i + 1) % bufCap
    let s' : TokBuf := ⟨i', s.n, fun j => if j = i' then u c else s.buf j⟩
    (Current s', s', c + 1)

/-- Unscan of buffer.go: push the previous token back onto the buffer. -/
def Unscan (s : TokBuf) : TokBuf :=
  ⟨s.i, s.n + 1, s.buf⟩

/-- A step of a TokenBuffer client: a Scan call or an Unscan call. -/
inductive BufOp where
  | scan
  | unscan
deriving DecidableEq, Repr

/-- Run a sequence of buffer operations, collecting the triples returned
by the Scan calls in order. -/
def execOps (u : Nat → Entry) : List BufOp → TokBuf × Nat →
    (TokBuf × Nat) × List Entry
  | [], st => (st, [])
  | .scan :: ops, (s, c) =>
    let step := ScanFunc u s c
    let rest := execOps u ops (step.2.1, step.2.2)
    (rest.1, step.1 :: rest.2)
  | .unscan :: ops, (s, c) => execOps u ops (Unscan s, c)

/-- States of a TokenBuffer reachable by a well-formed client: one that
never exceeds capacity minus one pending replays and never unscans more
than was produced. -/
inductive Reached (u : Nat → Entry) : TokBuf → Nat → Prop where
  | start : Reached u freshTB 0
  | scan {s c} : Reached u s c →
      Reached u (ScanFunc u s c).2.1 (ScanFunc u s c).2.2
  | unscan {s c} : Reached u s c → s.n + 1 ≤ bufCap - 1 → s.n + 1 ≤ c →
      Reached u (Unscan s) c

/-- Buffer invariant: the write index is reduced, the pending count is
within capacity minus one and within what was produced, and the last
min bufCap c produced triples sit in the circular buffer ending at the
write index. -/
def BufInv (u : Nat → Entry) (s : TokBuf) (c : Nat) : Prop :=
  s.i < 6 ∧ s.n ≤ 5 ∧ s.n ≤ c ∧
    ∀ j, j < min 6 c → s.buf ((s.i + 6 - j) % 6) = u (c - 1 - j)

/-- The invariant holds for a fresh TokenBuffer. -/
theorem bufInv_start (u : Nat → Entry) : BufInv u freshTB 0 := by
  refine ⟨by decide, by decide, by decide, ?_⟩
  intro j hj
  simp at hj

/-- Unfolding ScanFunc in the pending-replay case. -/
theorem scanFunc_pending (u : Nat → Entry) (s : TokBuf) (c : Nat)
    (hn : 0 < s.n) :
    ScanFunc u s c
      = (Current ⟨s.i, s.n - 1, s.buf⟩, ⟨s.i, s.n - 1, s.buf⟩, c) := by
  simp [ScanFunc, hn]

/-- Unfolding Current. -/
theorem Current_eq (s : TokBuf) :
    Current s = s.buf ((s.i + 6 - s.n) % 6) :=
  rfl

/-- Unfolding ScanFunc in the producing case. -/
theorem scanFunc_produce (u : Nat → Entry) (s : TokBuf) (c : Nat)
    (hn : s.n = 0) :
    ScanFunc u s c
      = (u c,
         ⟨(s.i + 1) % 6, 0,
          fun j => if j = (s.i + 1) % 6 then u c else s.buf j⟩, c + 1) := by
  have h0 : ¬ 0 < s.n := by omega
  simp only [ScanFunc, if_neg h0, hn, Current_eq, bufCap]
  have hslot : ((s.i + 1) % 6 + 6 - 0) % 6 = (s.i + 1) % 6 := by omega
  rw [hslot]
  simp

/-- ScanFunc preserves the buffer invariant. -/
theorem bufInv_scan {u : Nat → Entry} {s : TokBuf} {c : Nat}
    (h : BufInv u s c) :
    BufInv u (ScanFunc u s c).2.1 (ScanFunc u s c).2.2 := by
  obtain ⟨hi, hn5, hnc, hbuf⟩ := h
  by_cases hn : 0 < s.n
  · rw [scanFunc_pending u s c hn]
    refine ⟨hi, by show s.n - 1 ≤ 5; omega, by show s.n - 1 ≤ c; omega, ?_⟩
    intro j hj
    exact hbuf j hj
  · have hn0 : s.n = 0 := by omega
    rw [scanFunc_produce u s c hn0]
    refine ⟨by show (s.i + 1) % 6 < 6; omega, by show 0 ≤ 5; omega,
      by show 0 ≤ c + 1; omega, ?_⟩
    intro j hj
    have hj2 : j < min 6 (c + 1) := hj
    obtain ⟨hja, hjb⟩ := lt_min_iff.mp hj2
    show (if ((s.i + 1) % 6 + 6 - j) % 6 = (s.i + 1) % 6 then u c
      else s.buf (((s.i + 1) % 6 + 6 - j) % 6)) = u (c + 1 - 1 - j)
    rcases Nat.eq_zero_or_pos j with hj0 | hjpos
    · subst hj0
      rw [if_pos (by omega)]
      simp
    · have hj5 : j ≤ 5 := by omega
      rw [if_neg (by omega)]
      have hslot : ((s.i + 1) % 6 + 6 - j) % 6 = (s.i + 6 - (j - 1)) % 6 := by
        omega
      rw [hslot]
      have hj' : j - 1 < min 6 c := lt_min_iff.mpr ⟨by omega, by omega⟩
      rw [hbuf (j - 1) hj']
      congr 1
      omega

/-- Unscan preserves the buffer invariant when it stays within capacity
minus one and within what was produced. -/
theorem bufInv_unscan {u : Nat → Entry} {s : TokBuf} {c : Nat}
    (h : BufInv u s c) (h1 : s.n + 1 ≤ bufCap - 1) (h2 : s.n + 1 ≤ c) :
    BufInv u (Unscan s) c := by
  obtain ⟨hi, hn5, hnc, hbuf⟩ := h
  exact ⟨hi, h1, h2, hbuf⟩

/-- Every reachable TokenBuffer state satisfies the invariant. -/
theorem reached_bufInv {u : Nat → Entry} {s : TokBuf} {c : Nat}
    (h : Reached u s c) : BufInv u s c := by
  induction h with
  | start => exact bufInv_start u
  | scan _ ih => exact bufInv_scan ih
  | unscan _ h1 h2 ih => exact bufInv_unscan ih h1 h2

/-- Unfolding execOps over a leading Scan call. -/
theorem execOps_scan_cons (u : Nat → Entry) (ops : List BufOp)
    (s : TokBuf) (c : Nat) :
    execOps u (.scan :: ops) (s, c)
      = ((execOps u ops ((ScanFunc u s c).2.1, (ScanFunc u s c).2.2)).1,
         (ScanFunc u s c).1
           :: (execOps u ops ((ScanFunc u s c).2.1, (ScanFunc u s c).2.2)).2) :=
  rfl

/-- Running k consecutive Unscan calls adds k to the pending count. -/
theorem execOps_unscans (u : Nat → Entry) (k : Nat) :
    ∀ (ops : List BufOp) (s : TokBuf) (c : Nat),
    execOps u (List.replicate k .unscan ++ ops) (s, c)
      = execOps u ops (⟨s.i, s.n + k, s.buf⟩, c) := by
  induction k with
  | zero =>
    intro ops s c
    rfl
  | succ k ih =>
    intro ops s c
    rw [List.replicate_succ, List.cons_append]
    show execOps u (List.replicate k .unscan ++ ops) (Unscan s, c) = _
    rw [ih]
    show execOps u ops (⟨s.i, s.n + 1 + k, s.buf⟩, c) = _
    have harith : s.n + 1 + k = s.n + (k + 1) := by omega
    rw [harith]

/-- With m pending replays over an invariant-satisfying buffer, the next m
Scan calls replay the last m produced triples in their original order,
never touch the underlying scanner, and restore the zero-pending state. -/
theorem execOps_replay (u : Nat → Entry) (s : TokBuf) (c : Nat)
    (hInv : BufInv u s c) (hn : s.n = 0) :
    ∀ m, m ≤ 5 → m ≤ c →
    execOps u (List.replicate m .scan) (⟨s.i, m, s.buf⟩, c)
      = ((s, c), (List.range m).map (fun j => u (c - m + j))) := by
  obtain ⟨hi, _, _, hbuf⟩ := hInv
  intro m
  induction m with
  | zero =>
    intro _ _
    have hunf : execOps u (List.replicate 0 .scan) (⟨s.i, 0, s.buf⟩, c)
        = ((⟨s.i, 0, s.buf⟩, c), ([] : List Entry)) := rfl
    rw [hunf]
    have hs : (⟨s.i, 0, s.buf⟩ : TokBuf) = s := by
      cases s
      simp only at hn
      rw [hn]
    rw [hs]
    rfl
  | succ m ih =>
    intro hm5 hmc
    rw [List.replicate_succ, execOps_scan_cons]
    rw [scanFunc_pending u ⟨s.i, m + 1, s.buf⟩ c (by show 0 < m + 1; omega)]
    simp only
    have hred : (⟨s.i, m + 1 - 1, s.buf⟩ : TokBuf) = ⟨s.i, m, s.buf⟩ := rfl
    rw [hred]
    rw [ih (by omega) (by omega)]
    have hcur : Current ⟨s.i, m, s.buf⟩ = u (c - (m + 1)) := by
      show s.buf ((s.i + bufCap - m) % bufCap) = _
      have hcap : bufCap = 6 := rfl
      rw [hcap]
      have hm : m < min 6 c := lt_min_iff.mpr ⟨by omega, by omega⟩
      rw [hbuf m hm]
      congr 1
      omega
    rw [hcur]
    have hlist : (List.range (m + 1)).map (fun j => u (c - (m + 1) + j))
        = u (c - (m + 1))
          :: (List.range m).map (fun j => u (c - m + j)) := by
      simp only [List.range_succ_eq_map, List.map_cons, List.map_map,
        Function.comp]
      congr 1
      apply List.map_congr_left
      intro j hj
      show u (c - (m + 1) + (j + 1)) = u (c - m + j)
      congr 1
      omega
    rw [hlist]

/-- C3: for a TokenBuffer wrapping a scanner (abstracted as the stream u of
triples it produces): from any reachable state with no pending replays, a
run of k ≤ capacity - 1 consecutive Unscan calls followed by k Scan calls
returns exactly the k most recently produced (token, position, literal)
triples, in their original order, and restores the original state without
invoking the underlying scanner (the production count c is unchanged). -/
theorem C3_replay_buffer (u : Nat → Entry) (s : TokBuf) (c : Nat)
    (hR : Reached u s c) (hn : s.n = 0) (k : Nat)
    (hk5 : k ≤ bufCap - 1) (hkc : k ≤ c) :
    execOps u (List.replicate k .unscan ++ List.replicate k .scan) (s, c)
      = ((s, c), (List.range k).map (fun j => u (c - k + j))) := by
  rw [execOps_unscans]
  have hst : (⟨s.i, s.n + k, s.buf⟩ : TokBuf) = ⟨s.i, k, s.buf⟩ := by
    rw [hn]
    simp
  rw [hst]
  exact execOps_replay u s c (reached_bufInv hR) hn k hk5 hkc

/-- Concrete two-entry stream for the replay witness. -/
def uW : Nat → Entry := fun t => ⟨Tok.NUMBER, ⟨0, t⟩, "w"⟩

/-- TokenBuffer state after two producing scans. -/
def tbW : TokBuf :=
  (ScanFunc uW (ScanFunc uW freshTB 0).2.1 (ScanFunc uW freshTB 0).2.2).2.1

/-- Production count after two producing scans. -/
def cW : Nat :=
  (ScanFunc uW (ScanFunc uW freshTB 0).2.1 (ScanFunc uW freshTB 0).2.2).2.2

/-- Witness for C3: after two produced tokens, two Unscan calls followed by
two Scan calls replay both triples in order and restore the state. -/
theorem C3_replay_buffer_witness :
    execOps uW [BufOp.unscan, BufOp.unscan, BufOp.scan, BufOp.scan] (tbW, cW)
      = ((tbW, cW), [uW 0, uW 1]) := by
  have hR : Reached uW tbW cW := Reached.scan (Reached.scan Reached.start)
  have h := C3_replay_buffer uW tbW cW hR (by decide) 2 (by decide) (by decide)
  exact h

/-- Data of a pushed string. -/
theorem strData_push (s : String) (c : Char) :
    (s.push c).data = s.data ++ [c] := by
  cases s
  rfl

/-- Data of an appended string. -/
theorem strData_append (s t : String) :
    (s ++ t).data = s.data ++ t.data := by
  cases s
  cases t
  rfl

/-- Data of the empty string. -/
theorem strData_empty : ("" : String).data = [] :=
  rfl

/-- Strings with equal data are equal. -/
theorem strExt {s t : String} (h : s.data = t.data) : s = t :=
  String.ext h

/-- Reading after unreading a bumped reader is reading the original. -/
theorem unread_bump (r : Reader) : unread (bump r) = r :=
  rfl

/-- The rune returned when the unconsumed input is known. -/
theorem readChar_of_drop {r : Reader} {l : List Char}
    (h : r.input.drop r.idx = l) : readChar r = l.headD eofRune := by
  unfold readChar
  rw [h]

/-- Consuming one rune drops the head of the unconsumed input. -/
theorem drop_bump {r : Reader} {c : Char} {l : List Char}
    (h : r.input.drop r.idx = c :: l) :
    r.input.drop (bump r).idx = l := by
  show r.input.drop (r.idx + 1) = l
  rw [← List.drop_drop 1 r.idx r.input, h]
  rfl

/-- scanDigits consumes exactly a leading run of digits, stopping before
the first non-digit (or end of input). -/
theorem scanDigitsAux_spec (ds : List Char) (hds : ∀ c ∈ ds, isDigit c)
    (rest : List Char) (hrest : ∀ c, rest.head? = some c → ¬ isDigit c) :
    ∀ (r : Reader) (buf : String), r.input.drop r.idx = ds ++ rest →
    scanDigitsAux r buf
      = (⟨buf.data ++ ds⟩, ⟨r.input, r.idx + ds.length⟩) := by
  induction ds with
  | nil =>
    intro r buf hdrop
    simp only [List.nil_append] at hdrop
    have hnd : ¬ isDigit (readChar r) := by
      rw [readChar_of_drop hdrop]
      cases hr : rest with
      | nil => decide
      | cons c tl =>
        subst hr
        exact hrest c rfl
    rw [scanDigitsAux.eq_def]
    simp only [if_neg hnd, unread_bump]
    refine Prod.ext ?_ ?_
    · exact strExt (by simp)
    · show r = ⟨r.input, r.idx + 0⟩
      rfl
  | cons d ds ih =>
    intro r buf hdrop
    have hd : isDigit d := hds d (by simp)
    have hrc : readChar r = d := by
      rw [readChar_of_drop hdrop]
      rfl
    rw [scanDigitsAux.eq_def]
    simp only [hrc, if_pos hd]
    rw [ih (fun c hc => hds c (by simp [hc])) (bump r) (buf.push d)
      (drop_bump hdrop)]
    refine Prod.ext ?_ ?_
    · exact strExt (by simp [strData_push])
    · show (⟨r.input, r.idx + 1 + ds.length⟩ : Reader) = _
      show _ = (⟨r.input, r.idx + (ds.length + 1)⟩ : Reader)
      congr 1
      omega

/-- scanDigits in terms of the unconsumed input. -/
theorem scanDigits_spec {r : Reader} {ds rest : List Char}
    (hds : ∀ c ∈ ds, isDigit c)
    (hrest : ∀ c, rest.head? = some c → ¬ isDigit c)
    (hdrop : r.input.drop r.idx = ds ++ rest) :
    scanDigits r = (⟨ds⟩, ⟨r.input, r.idx + ds.length⟩) := by
  unfold scanDigits
  rw [scanDigitsAux_spec ds hds rest hrest r "" hdrop]
  rfl

/-- Digits are not whitespace. -/
theorem not_ws_of_digit {c : Char} (h : isDigit c) : isWhitespace c = false := by
  cases hw : isWhitespace c
  · rfl
  · simp [isWhitespace] at hw
    rcases hw with hw | hw | hw <;> subst hw <;> exact absurd h (by decide)

/-- Digits are not letters and not underscore. -/
theorem not_letter_of_digit {c : Char} (h : isDigit c) :
    (isLetter c ∨ c = '_') = False := by
  simp only [eq_iff_iff, iff_false]
  rintro (hl | hl)
  · simp [isLetter] at hl
    simp [isDigit] at h
    rcases hl with ⟨h1, _⟩ | ⟨h1, _⟩
    · exact absurd (le_trans h1 h.2) (by decide)
    · exact absurd (le_trans h1 h.2) (by decide)
  · subst hl
    exact absurd h (by decide)

/-- A digit first rune dispatches Scan to scanNumber. -/
theorem Scan_digit_dispatch (kw : KwTable) (r : Reader)
    (h : isDigit (readChar r)) : Scan kw r = scanNumber (bump r) := by
  unfold Scan
  simp [not_ws_of_digit h, not_letter_of_digit h, h]

/-- The sentinel as a character literal. -/
theorem eofRune_eq : eofRune = '\x00' :=
  rfl

/-- A plus or minus first rune dispatches Scan to scanNumber. -/
theorem Scan_sign_dispatch (kw : KwTable) (r : Reader)
    (h : readChar r = '+' ∨ readChar r = '-') :
    Scan kw r = scanNumber (bump r) := by
  unfold Scan
  rcases h with h | h <;>
    simp [isWhitespace, isLetter, isDigit, eofRune_eq, h]

/-- A full-stop first rune dispatches Scan on the following rune. -/
theorem Scan_dot_dispatch (kw : KwTable) (r : Reader)
    (h : readChar r = '.') :
    Scan kw r = if isDigit (readChar (bump r)) then scanNumber (bump r)
      else ⟨Tok.DOT, readPos r, "", bump r⟩ := by
  unfold Scan
  simp [isWhitespace, isLetter, isDigit, eofRune_eq, h, unread_bump]

/-- C1: the claim as stated is false: for the input consisting of the
single character full stop, Scan returns the DOT token (with empty
literal), not ILLEGAL with literal full stop. -/
theorem C1_counterexample :
    (Scan keywords0 (mkReader ".")).tok = Tok.DOT
      ∧ Tok.DOT ≠ Tok.ILLEGAL
      ∧ (Scan keywords0 (mkReader ".")).lit = "" :=
  ⟨rfl, by decide, rfl⟩

/-- C1 (amended): for an input starting with a full stop whose following
character is not a digit, Scan consumes only the full stop and returns the
DOT punctuation token with empty literal (the ILLEGAL-full-stop branch of
scanNumber is unreachable through Scan's dispatch). -/
theorem C1_dot_not_digit (rest : List Char)
    (h : ¬ isDigit (rest.headD eofRune)) :
    Scan keywords0 ⟨'.' :: rest, 0⟩
      = ⟨Tok.DOT, ⟨0, 0⟩, "", ⟨'.' :: rest, 1⟩⟩ := by
  have hrc : readChar ⟨'.' :: rest, 0⟩ = '.' := rfl
  rw [Scan_dot_dispatch keywords0 _ hrc]
  have hb : readChar (bump ⟨'.' :: rest, 0⟩) = rest.headD eofRune := rfl
  rw [hb, if_neg h]
  rfl

/-- Witness for the amended C1 at the concrete input of the claim: the
single-character input full stop. -/
theorem C1_dot_not_digit_witness :
    ¬ isDigit (([] : List Char).headD eofRune)
      ∧ Scan keywords0 ⟨['.'], 0⟩ = ⟨Tok.DOT, ⟨0, 0⟩, "", ⟨['.'], 1⟩⟩ :=
  ⟨by decide, C1_dot_not_digit [] (by decide)⟩

/-- Shape of the scanNumber tail: the position is preserved, the token is
NUMBER or DURATION_VAL, and the literal extends the buffer passed in. -/
theorem scanNumberTail_shape (pos : Pos) (buf : String) (r : Reader) :
    (scanNumberTail pos buf r).pos = pos
      ∧ ((scanNumberTail pos buf r).tok = Tok.NUMBER
          ∨ (scanNumberTail pos buf r).tok = Tok.DURATION_VAL)
      ∧ ∃ l, (scanNumberTail pos buf r).lit.data = buf.data ++ l := by
  unfold scanNumberTail
  rcases h0 : scanDigits r with ⟨ds, r1⟩
  simp only [h0]
  repeat' split
  all_goals refine ⟨rfl, by simp [Tok.NUMBER, Tok.DURATION_VAL], ?_⟩
  all_goals simp only [strData_push, strData_append, List.append_assoc]
  all_goals exact ⟨_, rfl⟩

/-- scanNumber when the consumed trigger rune is a plus or minus sign. -/
theorem scanNumber_sign (r : Reader) (c : Char) (hc : currChar r = c)
    (hpm : c = '+' ∨ c = '-') :
    scanNumber r
      = if isDigit (readChar r)
            ∨ (readChar r = '.' ∧ isDigit (readChar (bump r))) then
          scanNumberTail (currPos r) (String.singleton c) r
        else if c = '+' then ⟨Tok.PLUS, currPos r, "", r⟩
        else ⟨Tok.MINUS, currPos r, "", r⟩ := by
  have hrb : unread (unread (bump (bump r))) = r := rfl
  unfold scanNumber
  rcases hpm with h | h <;> subst h <;> simp [hc, hrb]

/-- C4: a + or - trigger followed by a digit, or by a full stop and a
digit, produces a numeric literal (NUMBER or DURATION_VAL) whose literal
text starts with the sign; otherwise the bare PLUS or MINUS operator token
with empty literal is returned and only the sign is consumed. -/
theorem C4_sign_dispatch (c : Char) (rest : List Char)
    (hc : c = '+' ∨ c = '-') :
    if isDigit (rest.headD eofRune)
        ∨ (rest.headD eofRune = '.' ∧ isDigit ((rest.drop 1).headD eofRune))
    then
      ((Scan keywords0 ⟨c :: rest, 0⟩).tok = Tok.NUMBER
          ∨ (Scan keywords0 ⟨c :: rest, 0⟩).tok = Tok.DURATION_VAL)
        ∧ ∃ l, (Scan keywords0 ⟨c :: rest, 0⟩).lit.data = c :: l
    else
      Scan keywords0 ⟨c :: rest, 0⟩
        = ⟨if c = '+' then Tok.PLUS else Tok.MINUS, ⟨0, 0⟩, "",
           ⟨c :: rest, 1⟩⟩ := by
  have hrc : readChar ⟨c :: rest, 0⟩ = c := rfl
  have hdisp := Scan_sign_dispatch keywords0 ⟨c :: rest, 0⟩
    (by rw [hrc]; exact hc)
  have hcurr : currChar (bump ⟨c :: rest, 0⟩) = c := rfl
  have hnum := scanNumber_sign (bump ⟨c :: rest, 0⟩) c hcurr hc
  have hr1 : readChar (bump ⟨c :: rest, 0⟩) = rest.headD eofRune := by
    cases rest <;> rfl
  have hr2 : readChar (bump (bump ⟨c :: rest, 0⟩))
      = (rest.drop 1).headD eofRune := by
    cases rest with
    | nil => rfl
    | cons a tl => cases tl <;> rfl
  rw [hr1, hr2] at hnum
  by_cases hcond : isDigit (rest.headD eofRune)
      ∨ (rest.headD eofRune = '.' ∧ isDigit ((rest.drop 1).headD eofRune))
  · rw [if_pos hcond]
    rw [hdisp, hnum, if_pos hcond]
    obtain ⟨hpos, htok, l, hlit⟩ :=
      scanNumberTail_shape (currPos (bump ⟨c :: rest, 0⟩))
        (String.singleton c) (bump ⟨c :: rest, 0⟩)
    exact ⟨htok, ⟨l, hlit⟩⟩
  · rw [if_neg hcond]
    rw [hdisp, hnum, if_neg hcond]
    have hpos : currPos (bump ⟨c :: rest, 0⟩) = ⟨0, 0⟩ := rfl
    rcases hc with h | h <;> subst h
    · rw [if_pos rfl, if_pos rfl]
      rw [hpos]
      rfl
    · rw [if_neg (by decide), if_neg (by decide)]
      rw [hpos]
      rfl

/-- Witness for C4 at the inputs of the claim: the bare sign, a signed
integer, and a signed fraction. -/
theorem C4_sign_dispatch_witness :
    (('+' : Char) = '+' ∨ ('+' : Char) = '-')
      ∧ (if isDigit (([] : List Char).headD eofRune)
            ∨ (([] : List Char).headD eofRune = '.'
                ∧ isDigit ((([] : List Char).drop 1).headD eofRune))
         then
           ((Scan keywords0 ⟨'+' :: ([] : List Char), 0⟩).tok = Tok.NUMBER
              ∨ (Scan keywords0 ⟨'+' :: ([] : List Char), 0⟩).tok
                  = Tok.DURATION_VAL)
             ∧ ∃ l, (Scan keywords0 ⟨'+' :: ([] : List Char), 0⟩).lit.data
                 = '+' :: l
         else
           Scan keywords0 ⟨'+' :: ([] : List Char), 0⟩
             = ⟨if ('+' : Char) = '+' then Tok.PLUS else Tok.MINUS, ⟨0, 0⟩,
                "", ⟨'+' :: ([] : List Char), 1⟩⟩)
      ∧ (if isDigit (['3'].headD eofRune)
            ∨ (['3'].headD eofRune = '.'
                ∧ isDigit ((['3'].drop 1).headD eofRune))
         then
           ((Scan keywords0 ⟨'+' :: ['3'], 0⟩).tok = Tok.NUMBER
              ∨ (Scan keywords0 ⟨'+' :: ['3'], 0⟩).tok = Tok.DURATION_VAL)
             ∧ ∃ l, (Scan keywords0 ⟨'+' :: ['3'], 0⟩).lit.data = '+' :: l
         else
           Scan keywords0 ⟨'+' :: ['3'], 0⟩
             = ⟨if ('+' : Char) = '+' then Tok.PLUS else Tok.MINUS, ⟨0, 0⟩,
                "", ⟨'+' :: ['3'], 1⟩⟩)
      ∧ (if isDigit (['.', '5'].headD eofRune)
            ∨ (['.', '5'].headD eofRune = '.'
                ∧ isDigit ((['.', '5'].drop 1).headD eofRune))
         then
           ((Scan keywords0 ⟨'-' :: ['.', '5'], 0⟩).tok = Tok.NUMBER
              ∨ (Scan keywords0 ⟨'-' :: ['.', '5'], 0⟩).tok
                  = Tok.DURATION_VAL)
             ∧ ∃ l, (Scan keywords0 ⟨'-' :: ['.', '5'], 0⟩).lit.data
                 = '-' :: l
         else
           Scan keywords0 ⟨'-' :: ['.', '5'], 0⟩
             = ⟨if ('-' : Char) = '+' then Tok.PLUS else Tok.MINUS, ⟨0, 0⟩,
                "", ⟨'-' :: ['.', '5'], 1⟩⟩) :=
  ⟨Or.inl rfl,
   C4_sign_dispatch '+' [] (Or.inl rfl),
   C4_sign_dispatch '+' ['3'] (Or.inl rfl),
   C4_sign_dispatch '-' ['.', '5'] (Or.inr rfl)⟩

/-- A digit trigger rune is not a sign. -/
theorem digit_not_sign {c : Char} (h : isDigit c) :
    ¬ (c = '+' ∨ c = '-') := by
  rintro (hc | hc) <;> subst hc <;> exact absurd h (by decide)

/-- A digit trigger rune is not a full stop. -/
theorem digit_not_dot {c : Char} (h : isDigit c) : c ≠ '.' := by
  intro hc
  subst hc
  exact absurd h (by decide)

/-- Dropping past a known prefix of the unconsumed input. -/
theorem drop_add {input m : List Char} {i : Nat} (l : List Char)
    (h : input.drop i = l ++ m) : input.drop (i + l.length) = m := by
  rw [← List.drop_drop l.length i input, h, List.drop_left]

/-- Dropping one more rune past a known unconsumed suffix. -/
theorem drop_succ_of_drop {input m : List Char} {i : Nat}
    (h : input.drop i = m) : input.drop (i + 1) = m.drop 1 := by
  rw [← List.drop_drop 1 i input, h]

/-- scanNumber when the consumed trigger rune is neither a sign nor a full
stop (the digit trigger from Scan). -/
theorem scanNumber_other (r : Reader)
    (h1 : ¬ (currChar r = '+' ∨ currChar r = '-'))
    (h2 : currChar r ≠ '.') :
    scanNumber r = scanNumberTail (currPos r) "" (unread r) := by
  unfold scanNumber
  simp [if_neg h1, if_neg h2]

/-- The scanNumber tail on an integer literal: consume the digit run, skip
the fraction, and decide the duration suffix from the next rune. -/
theorem scanNumberTail_nofrac (pos : Pos) (buf : String) (r : Reader)
    (ds rest : List Char) (hall : ∀ c ∈ ds, isDigit c)
    (hdrop : r.input.drop r.idx = ds ++ rest)
    (hnd : ∀ c, rest.head? = some c → ¬ isDigit c)
    (hdot : rest.headD eofRune ≠ '.')
    (hbuf : ('.' : Char) ∉ buf.data) :
    scanNumberTail pos buf r
      = if rest.headD eofRune = 'u' ∨ rest.headD eofRune = 'µ'
            ∨ rest.headD eofRune = 's' ∨ rest.headD eofRune = 'h'
            ∨ rest.headD eofRune = 'd' ∨ rest.headD eofRune = 'w' then
          ⟨Tok.DURATION_VAL, pos, ⟨buf.data ++ ds ++ [rest.headD eofRune]⟩,
           ⟨r.input, r.idx + ds.length + 1⟩⟩
        else if rest.headD eofRune = 'm' then
          if (rest.drop 1).headD eofRune = 's' then
            ⟨Tok.DURATION_VAL, pos, ⟨buf.data ++ ds ++ ['m', 's']⟩,
             ⟨r.input, r.idx + ds.length + 2⟩⟩
          else
            ⟨Tok.DURATION_VAL, pos, ⟨buf.data ++ ds ++ ['m']⟩,
             ⟨r.input, r.idx + ds.length + 1⟩⟩
        else
          ⟨Tok.NUMBER, pos, ⟨buf.data ++ ds⟩,
           ⟨r.input, r.idx + ds.length⟩⟩ := by
  have hdig := scanDigits_spec hall hnd hdrop
  have hdropr1 : r.input.drop (r.idx + ds.length) = rest := drop_add ds hdrop
  have hrc : readChar ⟨r.input, r.idx + ds.length⟩ = rest.headD eofRune :=
    readChar_of_drop hdropr1
  have hrc2 : readChar (bump ⟨r.input, r.idx + ds.length⟩)
      = (rest.drop 1).headD eofRune :=
    readChar_of_drop (drop_succ_of_drop hdropr1)
  have hnotin : ('.' : Char) ∉ buf.data ++ ds := by
    rw [List.mem_append]
    rintro (hm | hm)
    · exact hbuf hm
    · exact absurd (hall '.' hm) (by decide)
  have hcont : strContains (buf ++ (⟨ds⟩ : String)) '.' = false := by
    simp only [strContains, strData_append]
    simpa using hnotin
  unfold scanNumberTail
  rw [hdig]
  simp only [hrc, unread_bump]
  rw [if_neg hdot]
  simp only [hcont, Bool.false_eq_true, not_false_iff, if_true, hrc, hrc2]
  by_cases hu : rest.headD eofRune = 'u' ∨ rest.headD eofRune = 'µ'
      ∨ rest.headD eofRune = 's' ∨ rest.headD eofRune = 'h'
      ∨ rest.headD eofRune = 'd' ∨ rest.headD eofRune = 'w'
  · rw [if_pos hu, if_pos hu]
    have hlit : (buf ++ (⟨ds⟩ : String)).push (rest.headD eofRune)
        = (⟨buf.data ++ ds ++ [rest.headD eofRune]⟩ : String) :=
      strExt (by simp [strData_push, strData_append])
    rw [hlit]
    rfl
  · rw [if_neg hu, if_neg hu]
    by_cases hm : rest.headD eofRune = 'm'
    · rw [if_pos hm, if_pos hm]
      by_cases hs : (rest.drop 1).headD eofRune = 's'
      · rw [if_pos hs, if_pos hs]
        have hlit : ((buf ++ (⟨ds⟩ : String)).push (rest.headD eofRune)).push
              ((rest.drop 1).headD eofRune)
            = (⟨buf.data ++ ds ++ ['m', 's']⟩ : String) :=
          (by rw [hm, hs]; exact strExt (by simp [strData_push, strData_append]))
        rw [hlit]
        rfl
      · rw [if_neg hs, if_neg hs]
        have hlit : (buf ++ (⟨ds⟩ : String)).push (rest.headD eofRune)
            = (⟨buf.data ++ ds ++ ['m']⟩ : String) :=
          (by rw [hm]; exact strExt (by simp [strData_push, strData_append]))
        rw [hlit]
        rfl
    · rw [if_neg hm, if_neg hm]
      have hlit : buf ++ (⟨ds⟩ : String)
          = (⟨buf.data ++ ds⟩ : String) :=
        strExt (by simp [strData_append])
      rw [hlit]

/-- The scanNumber tail on a fractional literal: the digit run, the full
stop and the fractional digits are consumed, the duration check is skipped
entirely, and the token is NUMBER with the next rune left unconsumed. -/
theorem scanNumberTail_frac (pos : Pos) (buf : String) (r : Reader)
    (ds : List Char) (d2 : Char) (ds2 rest : List Char)
    (hall : ∀ c ∈ ds, isDigit c) (hd2 : isDigit d2)
    (hall2 : ∀ c ∈ ds2, isDigit c)
    (hdrop : r.input.drop r.idx = ds ++ '.' :: d2 :: (ds2 ++ rest))
    (hnd : ∀ c, rest.head? = some c → ¬ isDigit c) :
    scanNumberTail pos buf r
      = ⟨Tok.NUMBER, pos, ⟨buf.data ++ ds ++ '.' :: d2 :: ds2⟩,
         ⟨r.input, r.idx + ds.length + 2 + ds2.length⟩⟩ := by
  have hdig := scanDigits_spec hall
    (fun c hc => by
      simp at hc
      subst hc
      decide) hdrop
  have hdropr1 : r.input.drop (r.idx + ds.length)
      = '.' :: d2 :: (ds2 ++ rest) := drop_add ds hdrop
  have hrc : readChar ⟨r.input, r.idx + ds.length⟩ = '.' := by
    have h1 := readChar_of_drop (r := ⟨r.input, r.idx + ds.length⟩) hdropr1
    simpa using h1
  have hdropr2 : r.input.drop (r.idx + ds.length + 1)
      = d2 :: (ds2 ++ rest) := by
    have h2 := drop_succ_of_drop hdropr1
    simpa using h2
  have hrc2 : readChar (bump ⟨r.input, r.idx + ds.length⟩) = d2 := by
    have h2b := readChar_of_drop
      (r := ⟨r.input, r.idx + ds.length + 1⟩) hdropr2
    simpa using h2b
  have hdropr3 : r.input.drop (r.idx + ds.length + 2) = ds2 ++ rest := by
    have h3 := drop_succ_of_drop hdropr2
    simpa using h3
  have hdig2 : scanDigits (bump (bump ⟨r.input, r.idx + ds.length⟩))
      = ((⟨ds2⟩ : String), ⟨r.input, r.idx + ds.length + 2 + ds2.length⟩) :=
    scanDigits_spec hall2 hnd hdropr3
  have hcont : strContains
      (((buf ++ (⟨ds⟩ : String)).push '.').push d2 ++ (⟨ds2⟩ : String)) '.'
      = true := by
    simp [strContains, strData_push, strData_append]
  have hlit : ((buf ++ (⟨ds⟩ : String)).push '.').push d2 ++ (⟨ds2⟩ : String)
      = (⟨buf.data ++ ds ++ '.' :: d2 :: ds2⟩ : String) :=
    strExt (by simp [strData_push, strData_append])
  unfold scanNumberTail
  rw [hdig]
  simp only [hrc, hrc2, hdig2, hd2, if_true, ite_true, eq_self_iff_true]
  simp only [hcont]
  rw [if_neg (by simp)]
  rw [hlit]

/-- A digit-triggered Scan runs the scanNumber tail from the start of the
input with an empty buffer. -/
theorem Scan_digit_to_tail (kw : KwTable) (d : Char) (tl : List Char)
    (hd : isDigit d) :
    Scan kw ⟨d :: tl, 0⟩ = scanNumberTail ⟨0, 0⟩ "" ⟨d :: tl, 0⟩ := by
  have hrc : readChar ⟨d :: tl, 0⟩ = d := rfl
  rw [Scan_digit_dispatch kw _ (by rw [hrc]; exact hd)]
  have hcurr : currChar (bump ⟨d :: tl, 0⟩) = d := rfl
  rw [scanNumber_other (bump ⟨d :: tl, 0⟩)
    (by rw [hcurr]; exact digit_not_sign hd)
    (by rw [hcurr]; exact digit_not_dot hd)]
  rfl

/-- C2: an integer digit run followed directly by a recognized unit rune
becomes a DURATION_VAL token with the unit in the literal (with m also
absorbing a following s); when a fractional point was consumed the result
is always NUMBER, the literal stops before the unit, and the unit rune is
left unconsumed for the next scan. -/
theorem C2_duration_vs_fraction (ds : List Char) (hne : ds ≠ [])
    (hall : ∀ c ∈ ds, isDigit c) :
    (∀ u rest, u ∈ ['u', 'µ', 's', 'h', 'd', 'w'] →
       Scan keywords0 ⟨ds ++ u :: rest, 0⟩
         = ⟨Tok.DURATION_VAL, ⟨0, 0⟩, ⟨ds ++ [u]⟩,
            ⟨ds ++ u :: rest, ds.length + 1⟩⟩)
    ∧ (∀ rest, Scan keywords0 ⟨ds ++ 'm' :: 's' :: rest, 0⟩
         = ⟨Tok.DURATION_VAL, ⟨0, 0⟩, ⟨ds ++ ['m', 's']⟩,
            ⟨ds ++ 'm' :: 's' :: rest, ds.length + 2⟩⟩)
    ∧ (∀ rest, rest.headD eofRune ≠ 's' →
       Scan keywords0 ⟨ds ++ 'm' :: rest, 0⟩
         = ⟨Tok.DURATION_VAL, ⟨0, 0⟩, ⟨ds ++ ['m']⟩,
            ⟨ds ++ 'm' :: rest, ds.length + 1⟩⟩)
    ∧ (∀ d2 ds2 u rest, isDigit d2 → (∀ c ∈ ds2, isDigit c) →
        u ∈ ['u', 'µ', 's', 'h', 'd', 'w', 'm'] →
       Scan keywords0 ⟨ds ++ '.' :: d2 :: (ds2 ++ u :: rest), 0⟩
         = ⟨Tok.NUMBER, ⟨0, 0⟩, ⟨ds ++ '.' :: d2 :: ds2⟩,
            ⟨ds ++ '.' :: d2 :: (ds2 ++ u :: rest),
             ds.length + 2 + ds2.length⟩⟩) := by
  obtain ⟨d, ds', rfl⟩ := List.exists_cons_of_ne_nil hne
  have hd : isDigit d := hall d (by simp)
  refine ⟨?_, ?_, ?_, ?_⟩
  · intro u rest hu
    simp only [List.mem_cons, List.mem_singleton, List.not_mem_nil,
      or_false] at hu
    have hstep := Scan_digit_to_tail keywords0 d (ds' ++ u :: rest) hd
    rw [List.cons_append] at *
    rw [hstep]
    have htail := scanNumberTail_nofrac ⟨0, 0⟩ "" ⟨d :: (ds' ++ u :: rest), 0⟩
      (d :: ds') (u :: rest) hall (by simp)
      (by
        intro c hc
        simp at hc
        subst hc
        rcases hu with h | h | h | h | h | h <;> subst h <;> decide)
      (by
        show u ≠ '.'
        rcases hu with h | h | h | h | h | h <;> subst h <;> decide)
      (by decide)
    rw [htail]
    have hcond : (u :: rest).headD eofRune = 'u'
        ∨ (u :: rest).headD eofRune = 'µ' ∨ (u :: rest).headD eofRune = 's'
        ∨ (u :: rest).headD eofRune = 'h' ∨ (u :: rest).headD eofRune = 'd'
        ∨ (u :: rest).headD eofRune = 'w' := by
      show u = 'u' ∨ u = 'µ' ∨ u = 's' ∨ u = 'h' ∨ u = 'd' ∨ u = 'w'
      exact hu
    rw [if_pos hcond]
    simp
  · intro rest
    have hstep := Scan_digit_to_tail keywords0 d (ds' ++ 'm' :: 's' :: rest)
      hd
    rw [List.cons_append] at *
    rw [hstep]
    have htail := scanNumberTail_nofrac ⟨0, 0⟩ ""
      ⟨d :: (ds' ++ 'm' :: 's' :: rest), 0⟩
      (d :: ds') ('m' :: 's' :: rest) hall (by simp)
      (by
        intro c hc
        simp at hc
        subst hc
        decide)
      (by simp) (by decide)
    rw [htail]
    rw [if_neg (by simp), if_pos (by rfl), if_pos (by rfl)]
    simp
  · intro rest hrs
    have hstep := Scan_digit_to_tail keywords0 d (ds' ++ 'm' :: rest) hd
    rw [List.cons_append] at *
    rw [hstep]
    have htail := scanNumberTail_nofrac ⟨0, 0⟩ ""
      ⟨d :: (ds' ++ 'm' :: rest), 0⟩
      (d :: ds') ('m' :: rest) hall (by simp)
      (by
        intro c hc
        simp at hc
        subst hc
        decide)
      (by simp) (by decide)
    rw [htail]
    rw [if_neg (by simp), if_pos (by rfl)]
    rw [if_neg (by simpa using hrs)]
    simp
  · intro d2 ds2 u rest hd2 hall2 hu
    simp only [List.mem_cons, List.mem_singleton, List.not_mem_nil,
      or_false] at hu
    have hstep := Scan_digit_to_tail keywords0 d
      (ds' ++ '.' :: d2 :: (ds2 ++ u :: rest)) hd
    rw [List.cons_append] at *
    rw [hstep]
    have htail := scanNumberTail_frac ⟨0, 0⟩ ""
      ⟨d :: (ds' ++ '.' :: d2 :: (ds2 ++ u :: rest)), 0⟩
      (d :: ds') d2 ds2 (u :: rest) hall hd2 hall2 (by simp)
      (by
        intro c hc
        simp at hc
        subst hc
        rcases hu with h | h | h | h | h | h | h <;> subst h <;> decide)
    rw [htail]
    simp

/-- Witness for C2 at the claim's example inputs 10s, 10ms and 10.5s. -/
theorem C2_duration_vs_fraction_witness :
    (['1', '0'] ≠ ([] : List Char))
    ∧ (∀ c ∈ ['1', '0'], isDigit c)
    ∧ Scan keywords0 ⟨['1', '0', 's'], 0⟩
        = ⟨Tok.DURATION_VAL, ⟨0, 0⟩, ⟨['1', '0', 's']⟩, ⟨['1', '0', 's'], 3⟩⟩
    ∧ Scan keywords0 ⟨['1', '0', 'm', 's'], 0⟩
        = ⟨Tok.DURATION_VAL, ⟨0, 0⟩, ⟨['1', '0', 'm', 's']⟩,
           ⟨['1', '0', 'm', 's'], 4⟩⟩
    ∧ Scan keywords0 ⟨['1', '0', '.', '5', 's'], 0⟩
        = ⟨Tok.NUMBER, ⟨0, 0⟩, ⟨['1', '0', '.', '5']⟩,
           ⟨['1', '0', '.', '5', 's'], 4⟩⟩ := by
  have h := C2_duration_vs_fraction ['1', '0'] (by decide) (by decide)
  refine ⟨by decide, by decide, ?_, ?_, ?_⟩
  · exact h.1 's' [] (by decide)
  · exact h.2.1 []
  · exact h.2.2.2 '5' [] 's' [] (by decide) (by decide) (by decide)

/-- The digit loop only appends to its buffer. -/
theorem scanDigitsAux_litFront (r : Reader) (buf : String) :
    ∃ l, (scanDigitsAux r buf).1.data = buf.data ++ l := by
  induction r, buf using scanDigitsAux.induct with
  | case1 r buf ch h ih =>
    rw [scanDigitsAux.eq_def]
    simp only [if_pos h]
    obtain ⟨l, hl⟩ := ih
    refine ⟨ch :: l, ?_⟩
    rw [hl]
    simp [strData_push]
  | case2 r buf ch h =>
    rw [scanDigitsAux.eq_def]
    simp only [if_neg h]
    exact ⟨[], by simp⟩

/-- A nonempty-data string is not the empty string. -/
theorem str_ne_empty {s : String} (h : s.data ≠ []) : s ≠ "" := by
  intro he
  subst he
  exact h rfl

/-- The scanNumber tail's literal always extends the buffer and the
scanned digit run. -/
theorem scanNumberTail_litFront (pos : Pos) (buf : String) (r : Reader) :
    ∃ l, (scanNumberTail pos buf r).lit.data
      = buf.data ++ (scanDigits r).1.data ++ l := by
  unfold scanNumberTail
  rcases h0 : scanDigits r with ⟨ds, r1⟩
  simp only [h0]
  repeat' split
  all_goals simp only [strData_push, strData_append, List.append_assoc]
  all_goals first
    | exact ⟨_, rfl⟩
    | exact ⟨[], by simp⟩

/-- The scanNumber tail starting on a digit yields a nonempty literal. -/
theorem scanNumberTail_digitstart (pos : Pos) (r : Reader)
    (h : isDigit (readChar r)) :
    (scanNumberTail pos "" r).lit ≠ "" := by
  have h0 : scanDigitsAux r ""
      = scanDigitsAux (bump r) ("".push (readChar r)) := by
    rw [scanDigitsAux.eq_def]
    simp only [if_pos h]
  obtain ⟨l, hl⟩ := scanDigitsAux_litFront (bump r) ("".push (readChar r))
  have hds : (scanDigits r).1.data = readChar r :: l := by
    unfold scanDigits
    rw [h0, hl]
    simp [strData_push]
  obtain ⟨l3, hl3⟩ := scanNumberTail_litFront pos "" r
  apply str_ne_empty
  rw [hl3, hds]
  simp

/-- The scanNumber tail on a consumed full stop followed by a digit is a
NUMBER with nonempty literal. -/
theorem scanNumberTail_dotstart (pos : Pos) (r : Reader)
    (h1 : readChar r = '.') (h2 : isDigit (readChar (bump r))) :
    (scanNumberTail pos "" r).tok = Tok.NUMBER
      ∧ (scanNumberTail pos "" r).lit ≠ "" := by
  have hdig : scanDigits r = ("", unread (bump r)) := by
    unfold scanDigits
    rw [scanDigitsAux.eq_def]
    simp only [h1]
    rw [if_neg (by decide)]
  rcases hd2 : scanDigits (bump (bump r)) with ⟨ds2, r2⟩
  have hcont : strContains
      ((("" ++ ("" : String)).push '.').push (readChar (bump r)) ++ ds2) '.'
      = true := by
    simp [strContains, strData_push, strData_append]
  unfold scanNumberTail
  rw [hdig]
  simp only [unread_bump, h1, h2, hd2, if_true, ite_true, eq_self_iff_true,
    hcont]
  rw [if_neg (by simp)]
  refine ⟨rfl, ?_⟩
  apply str_ne_empty
  simp [strData_push, strData_append]

/-- Before any read, curr() holds the sentinel zero value. -/
theorem currChar_zero {r : Reader} (h : r.idx = 0) : currChar r = eofRune := by
  unfold currChar
  rw [if_pos h]

/-- When something was read, reading after one unread re-reads the current
rune. -/
theorem readChar_unread {r : Reader} (h : r.idx ≠ 0) :
    readChar (unread r) = currChar r := by
  unfold readChar unread currChar
  rw [if_neg h]

/-- When something was read, bump after unread restores the reader. -/
theorem bump_unread {r : Reader} (h : r.idx ≠ 0) : bump (unread r) = r := by
  cases r with
  | mk input idx =>
    simp only [bump, unread]
    congr 1
    simp at h
    omega

/-- Case analysis on scanNumber's result. -/
theorem scanNumber_cases (r : Reader) :
    ((scanNumber r).tok = Tok.PLUS ∧ (scanNumber r).lit = "")
    ∨ ((scanNumber r).tok = Tok.MINUS ∧ (scanNumber r).lit = "")
    ∨ ((scanNumber r).tok = Tok.ILLEGAL ∧ (scanNumber r).lit = ".")
    ∨ (scanNumber r).tok = Tok.NUMBER
    ∨ (scanNumber r).tok = Tok.DURATION_VAL := by
  unfold scanNumber
  dsimp only
  repeat' split
  all_goals first
    | exact Or.inl ⟨rfl, rfl⟩
    | exact Or.inr (Or.inl ⟨rfl, rfl⟩)
    | exact Or.inr (Or.inr (Or.inl ⟨rfl, rfl⟩))
    | (rcases (scanNumberTail_shape _ _ _).2.1 with h | h
       exacts [Or.inr (Or.inr (Or.inr (Or.inl h))),
         Or.inr (Or.inr (Or.inr (Or.inr h)))])

/-- Under the preconditions holding at every Scan call site, a NUMBER or
DURATION_VAL result of scanNumber has a nonempty literal. -/
theorem scanNumber_lit_nonempty (r : Reader)
    (h : isDigit (currChar r)
        ∨ (currChar r = '.' ∧ isDigit (readChar r))
        ∨ (currChar r = '+' ∨ currChar r = '-')) :
    (scanNumber r).lit ≠ ""
      ∨ ((scanNumber r).tok ≠ Tok.NUMBER
          ∧ (scanNumber r).tok ≠ Tok.DURATION_VAL) := by
  rcases h with hd | ⟨hdot, hdig⟩ | hsign
  · have hne0 : r.idx ≠ 0 := by
      intro h0
      rw [currChar_zero h0] at hd
      exact absurd hd (by decide)
    rw [scanNumber_other r (digit_not_sign hd) (digit_not_dot hd)]
    left
    exact scanNumberTail_digitstart _ _ (by rw [readChar_unread hne0]; exact hd)
  · have hne0 : r.idx ≠ 0 := by
      intro h0
      rw [currChar_zero h0] at hdot
      exact absurd hdot (by decide)
    unfold scanNumber
    rw [if_neg (by rw [hdot]; rintro (h | h) <;> exact absurd h (by decide))]
    rw [if_pos hdot]
    rw [if_neg (by simp [hdig])]
    left
    have hr1 : readChar (unread (unread (bump r))) = '.' := by
      have he : unread (unread (bump r)) = unread r := rfl
      rw [he, readChar_unread hne0, hdot]
    have hr2 : isDigit (readChar (bump (unread (unread (bump r))))) := by
      have he : unread (unread (bump r)) = unread r := rfl
      rw [he, bump_unread hne0]
      exact hdig
    exact (scanNumberTail_dotstart _ _ hr1 hr2).2
  · rcases hsign with hplus | hminus
    · rw [scanNumber_sign r '+' hplus (Or.inl rfl)]
      split
      · left
        obtain ⟨l, hl⟩ := scanNumberTail_litFront (currPos r)
          (String.singleton '+') r
        apply str_ne_empty
        rw [hl]
        simp [String.singleton, strData_push]
      · split
        · right
          exact ⟨fun hc => by simp [Tok.PLUS, Tok.NUMBER] at hc,
            fun hc => by simp [Tok.PLUS, Tok.DURATION_VAL] at hc⟩
        · right
          exact ⟨fun hc => by simp [Tok.MINUS, Tok.NUMBER] at hc,
            fun hc => by simp [Tok.MINUS, Tok.DURATION_VAL] at hc⟩
    · rw [scanNumber_sign r '-' hminus (Or.inr rfl)]
      split
      · left
        obtain ⟨l, hl⟩ := scanNumberTail_litFront (currPos r)
          (String.singleton '-') r
        apply str_ne_empty
        rw [hl]
        simp [String.singleton, strData_push]
      · split
        · right
          exact ⟨fun hc => by simp [Tok.PLUS, Tok.NUMBER] at hc,
            fun hc => by simp [Tok.PLUS, Tok.DURATION_VAL] at hc⟩
        · right
          exact ⟨fun hc => by simp [Tok.MINUS, Tok.NUMBER] at hc,
            fun hc => by simp [Tok.MINUS, Tok.DURATION_VAL] at hc⟩

/-- scanString only returns STRING, BADSTRING or BADESCAPE. -/
theorem scanString_cases (r : Reader) :
    (scanString r).tok = Tok.STRING ∨ (scanString r).tok = Tok.BADSTRING
      ∨ (scanString r).tok = Tok.BADESCAPE := by
  unfold scanString
  rcases ho : (ScanString (unread r)).2.1 with _ | e
  · simp [ho]
  · cases e <;> simp [ho]

/-- scanWhitespace always returns a WS token. -/
theorem scanWhitespace_tok (r : Reader) :
    (scanWhitespace r).tok = Tok.WS :=
  rfl

/-- Early returns of the scanIdent loop are BADSTRING, BADESCAPE or
IDENT. -/
theorem scanIdentAux_ret_shape (pos : Pos) (r : Reader) (buf : String) :
    ∀ res, scanIdentAux pos r buf = .ret res →
      res.tok = Tok.BADSTRING ∨ res.tok = Tok.BADESCAPE
        ∨ res.tok = Tok.IDENT := by
  induction r, buf using scanIdentAux.induct with
  | pos => exact pos
  | case1 r buf h =>
    intro res hres
    rw [scanIdentAux.eq_def] at hres
    simp only [if_pos h] at hres
    exact IdentStep.noConfusion hres
  | case2 r buf h hq res0 hcase =>
    intro res hres
    rw [scanIdentAux.eq_def] at hres
    simp only [if_neg h, if_pos hq] at hres
    split at hres
    all_goals cases hres
    all_goals first
      | exact Or.inr (Or.inr rfl)
      | (rcases (by assumption :
            (scanString (bump r)).tok = Tok.BADSTRING
              ∨ (scanString (bump r)).tok = Tok.BADESCAPE) with hc | hc
         · exact Or.inl hc
         · exact Or.inr (Or.inl hc))
  | case3 r buf h hq res0 hcase =>
    intro res hres
    rw [scanIdentAux.eq_def] at hres
    simp only [if_neg h, if_pos hq] at hres
    split at hres
    all_goals cases hres
    all_goals first
      | exact Or.inr (Or.inr rfl)
      | (rcases (by assumption :
            (scanString (bump r)).tok = Tok.BADSTRING
              ∨ (scanString (bump r)).tok = Tok.BADESCAPE) with hc | hc
         · exact Or.inl hc
         · exact Or.inr (Or.inl hc))
  | case4 r buf h hq hid ih =>
    intro res hres
    rw [scanIdentAux.eq_def] at hres
    simp only [if_neg h, if_neg hq, if_pos hid] at hres
    exact ih res hres
  | case5 r buf h hq hid =>
    intro res hres
    rw [scanIdentAux.eq_def] at hres
    simp only [if_neg h, if_neg hq, if_neg hid] at hres
    exact IdentStep.noConfusion hres

/-- The built-in keyword table only produces the four seeded keyword kinds
or the IDENT fallback. -/
theorem Lookup_keywords0_cases (s : String) :
    Lookup keywords0 s = Tok.IDENT ∨ Lookup keywords0 s = Tok.AND
      ∨ Lookup keywords0 s = Tok.OR ∨ Lookup keywords0 s = Tok.TRUE
      ∨ Lookup keywords0 s = Tok.FALSE := by
  unfold Lookup keywords0
  split
  · rename_i tok heq
    repeat' split at heq
    all_goals simp_all
  · exact Or.inl rfl

/-- Case analysis on scanIdent over the built-in table: an error token, an
IDENT, or a seeded keyword kind with empty literal. -/
theorem scanIdent_cases (r : Reader) :
    ((scanIdent keywords0 r).tok = Tok.BADSTRING
      ∨ (scanIdent keywords0 r).tok = Tok.BADESCAPE
      ∨ (scanIdent keywords0 r).tok = Tok.IDENT)
    ∨ ((scanIdent keywords0 r).lit = ""
        ∧ ((scanIdent keywords0 r).tok = Tok.AND
            ∨ (scanIdent keywords0 r).tok = Tok.OR
            ∨ (scanIdent keywords0 r).tok = Tok.TRUE
            ∨ (scanIdent keywords0 r).tok = Tok.FALSE)) := by
  unfold scanIdent
  rcases ha : scanIdentAux (readPos r) r "" with res | ⟨lit, r'⟩
  · simp only [ha]
    exact Or.inl (scanIdentAux_ret_shape (readPos r) r "" res ha)
  · simp only [ha]
    split
    · rename_i hne
      rcases Lookup_keywords0_cases lit with h | h | h | h | h
      · exact absurd h hne
      · exact Or.inr ⟨rfl, Or.inl h⟩
      · exact Or.inr ⟨rfl, Or.inr (Or.inl h)⟩
      · exact Or.inr ⟨rfl, Or.inr (Or.inr (Or.inl h))⟩
      · exact Or.inr ⟨rfl, Or.inr (Or.inr (Or.inr h))⟩
    · exact Or.inl (Or.inr (Or.inr rfl))

/-- Token kinds whose literal is always empty (the punctuation and operator
kinds, EOF, and the built-in keyword kinds). -/
def emptyLitKinds : List Token :=
  [Tok.EOF, Tok.DOT, Tok.LPAREN, Tok.RPAREN, Tok.LBRACKET, Tok.RBRACKET,
   Tok.LCURLY, Tok.RCURLY, Tok.COMMA, Tok.SEMICOLON, Tok.COLON,
   Tok.SINGLEQUOTE, Tok.DOUBLEQUOTE, Tok.PERCENT, Tok.DOLLAR, Tok.HASH,
   Tok.ATSIGN, Tok.PLUS, Tok.MINUS, Tok.MUL, Tok.DIV, Tok.AMPERSAND,
   Tok.XOR, Tok.PIPE, Tok.LSHIFT, Tok.RSHIFT, Tok.POW, Tok.ARROW,
   Tok.EQARROW, Tok.AND, Tok.OR, Tok.TRUE, Tok.FALSE, Tok.EQ, Tok.NEQ,
   Tok.EQREGEX, Tok.NEQREGEX, Tok.LT, Tok.LTE, Tok.GT, Tok.GTE]

/-- Soundness predicate for one scan from reader state r: empty-literal
kinds carry no literal, numeric kinds carry a nonempty one, an EOF means
the reader was exhausted, and a WS token means the trigger rune was
whitespace. -/
def ScanOK (r : Reader) (res : ScanRes) : Prop :=
  (res.tok ∈ emptyLitKinds → res.lit = "")
  ∧ ((res.tok = Tok.NUMBER ∨ res.tok = Tok.DURATION_VAL) → res.lit ≠ "")
  ∧ (res.tok = Tok.EOF → readChar r = eofRune
      ∧ res = ⟨Tok.EOF, readPos r, "", bump r⟩)
  ∧ (res.tok = Tok.WS → isWhitespace (readChar r))

/-- Discharging ScanOK from coarse facts about the result. -/
theorem scanOK_of_facts (r : Reader) (res : ScanRes)
    (hmem : res.tok ∉ emptyLitKinds ∨ res.lit = "")
    (hnum : (res.tok ≠ Tok.NUMBER ∧ res.tok ≠ Tok.DURATION_VAL)
        ∨ res.lit ≠ "")
    (heof : res.tok ≠ Tok.EOF)
    (hws : res.tok ≠ Tok.WS) :
    ScanOK r res := by
  refine ⟨?_, ?_, ?_, ?_⟩
  · intro h
    rcases hmem with hm | hm
    · exact absurd h hm
    · exact hm
  · intro h
    rcases hnum with ⟨h1, h2⟩ | hl
    · rcases h with h | h
      · exact absurd h h1
      · exact absurd h h2
    · exact hl
  · intro h
    exact absurd h heof
  · intro h
    exact absurd h hws

/-- The whitespace branch is sound. -/
theorem scanOK_ws (r : Reader) (h : isWhitespace (readChar r)) :
    ScanOK r (scanWhitespace (bump r)) := by
  refine ⟨?_, ?_, ?_, ?_⟩
  · intro hmem
    rw [scanWhitespace_tok] at hmem
    exact absurd hmem (by decide)
  · intro hnum
    rcases hnum with h2 | h2 <;> rw [scanWhitespace_tok] at h2 <;>
      exact absurd h2 (by decide)
  · intro heof
    rw [scanWhitespace_tok] at heof
    exact absurd heof (by decide)
  · intro _
    exact h

/-- The identifier branch is sound. -/
theorem scanOK_ident (r r2 : Reader) : ScanOK r (scanIdent keywords0 r2) := by
  rcases scanIdent_cases r2 with (h | h | h) | ⟨hl, (h | h | h | h)⟩ <;>
    refine scanOK_of_facts r _ ?_ ?_ (by rw [h]; decide) (by rw [h]; decide) <;>
    first
      | exact Or.inl (by rw [h]; decide)
      | exact Or.inr hl
      | exact Or.inl ⟨by rw [h]; decide, by rw [h]; decide⟩

/-- The quoted-string branch is sound. -/
theorem scanOK_string (r r2 : Reader) : ScanOK r (scanString r2) := by
  rcases scanString_cases r2 with h | h | h <;>
    refine scanOK_of_facts r _ (Or.inl (by rw [h]; decide))
      (Or.inl ⟨by rw [h]; decide, by rw [h]; decide⟩)
      (by rw [h]; decide) (by rw [h]; decide)

/-- The number branch is sound under its dispatch preconditions. -/
theorem scanOK_number (r : Reader)
    (hpre : isDigit (currChar (bump r))
        ∨ (currChar (bump r) = '.' ∧ isDigit (readChar (bump r)))
        ∨ (currChar (bump r) = '+' ∨ currChar (bump r) = '-')) :
    ScanOK r (scanNumber (bump r)) := by
  have hne := scanNumber_lit_nonempty (bump r) hpre
  rcases scanNumber_cases (bump r) with ⟨ht, hl⟩ | ⟨ht, hl⟩ | ⟨ht, hl⟩
    | ht | ht
  · exact scanOK_of_facts r _ (Or.inr hl)
      (Or.inl ⟨by rw [ht]; decide, by rw [ht]; decide⟩)
      (by rw [ht]; decide) (by rw [ht]; decide)
  · exact scanOK_of_facts r _ (Or.inr hl)
      (Or.inl ⟨by rw [ht]; decide, by rw [ht]; decide⟩)
      (by rw [ht]; decide) (by rw [ht]; decide)
  · exact scanOK_of_facts r _ (Or.inl (by rw [ht]; decide))
      (Or.inl ⟨by rw [ht]; decide, by rw [ht]; decide⟩)
      (by rw [ht]; decide) (by rw [ht]; decide)
  · refine scanOK_of_facts r _ (Or.inl (by rw [ht]; decide)) ?_
      (by rw [ht]; decide) (by rw [ht]; decide)
    rcases hne with hl | ⟨h1, h2⟩
    · exact Or.inr hl
    · exact absurd ht h1
  · refine scanOK_of_facts r _ (Or.inl (by rw [ht]; decide)) ?_
      (by rw [ht]; decide) (by rw [ht]; decide)
    rcases hne with hl | ⟨h1, h2⟩
    · exact Or.inr hl
    · exact absurd ht h2

/-- The end-of-stream branch is sound. -/
theorem scanOK_eof (r : Reader) (h : readChar r = eofRune) :
    ScanOK r ⟨Tok.EOF, readPos r, "", bump r⟩ := by
  refine ⟨fun _ => rfl, ?_, fun _ => ⟨h, rfl⟩, ?_⟩
  · intro hnum
    rcases hnum with h2 | h2 <;> dsimp only at h2 <;>
      exact absurd h2 (by decide)
  · intro hws
    dsimp only at hws
    exact absurd hws (by decide)

/-- After a bump, the current rune is the one just read. -/
theorem currChar_bump (r : Reader) : currChar (bump r) = readChar r := by
  unfold currChar bump readChar
  simp

/-- Constant-result branches are sound when the token is none of the
special kinds and respects the empty-literal discipline. -/
theorem scanOK_const (r : Reader) (t : Token) (p : Pos) (l : String)
    (rd : Reader)
    (hmem : t ∈ emptyLitKinds → l = "")
    (hnum : t ≠ Tok.NUMBER ∧ t ≠ Tok.DURATION_VAL)
    (heof : t ≠ Tok.EOF) (hws : t ≠ Tok.WS) :
    ScanOK r ⟨t, p, l, rd⟩ := by
  refine ⟨?_, ?_, ?_, ?_⟩
  · intro h
    exact hmem h
  · intro h
    rcases h with h | h
    · exact absurd h hnum.1
    · exact absurd h hnum.2
  · intro h
    exact absurd h heof
  · intro h
    exact absurd h hws

/-- Master soundness of Scan over the built-in keyword table: every
result satisfies ScanOK. -/
theorem Scan_master (r : Reader) : ScanOK r (Scan keywords0 r) := by
  unfold Scan
  dsimp only
  by_cases h1 : isWhitespace (readChar r)
  · rw [if_pos h1]
    exact scanOK_ws r h1
  rw [if_neg h1]
  by_cases h2 : isLetter (readChar r) ∨ readChar r = '_'
  · rw [if_pos h2]
    exact scanOK_ident r r
  rw [if_neg h2]
  by_cases h3 : isDigit (readChar r)
  · rw [if_pos h3]
    exact scanOK_number r (Or.inl (by rw [currChar_bump]; exact h3))
  rw [if_neg h3]
  by_cases h4 : readChar r = eofRune
  · rw [if_pos h4]
    exact scanOK_eof r h4
  rw [if_neg h4]
  by_cases h5 : readChar r = '"'
  · rw [if_pos h5]
    exact scanOK_ident r r
  rw [if_neg h5]
  by_cases h6 : readChar r = '\''
  · rw [if_pos h6]
    exact scanOK_string r (bump r)
  rw [if_neg h6]
  by_cases h7 : readChar r = '.'
  · rw [if_pos h7]
    by_cases h8 : isDigit (readChar (bump r))
    · rw [if_pos h8]
      exact scanOK_number r (Or.inr (Or.inl ⟨by rw [currChar_bump]; exact h7, h8⟩))
    · rw [if_neg h8]
      exact scanOK_const r _ _ _ _ (fun _ => rfl) (by decide) (by decide) (by decide)
  rw [if_neg h7]
  by_cases h9 : readChar r = '+' ∨ readChar r = '-'
  · rw [if_pos h9]
    exact scanOK_number r (Or.inr (Or.inr (by rw [currChar_bump]; exact h9)))
  rw [if_neg h9]
  by_cases h10 : readChar r = '*'
  · rw [if_pos h10]
    exact scanOK_const r _ _ _ _ (fun _ => rfl) (by decide) (by decide) (by decide)
  rw [if_neg h10]
  by_cases h11 : readChar r = '/'
  · rw [if_pos h11]
    exact scanOK_const r _ _ _ _ (fun _ => rfl) (by decide) (by decide) (by decide)
  rw [if_neg h11]
  by_cases h12 : readChar r = '='
  · rw [if_pos h12]
    by_cases h13 : readChar (bump r) = '~'
    · rw [if_pos h13]
      exact scanOK_const r _ _ _ _ (fun _ => rfl) (by decide) (by decide) (by decide)
    · rw [if_neg h13]
      exact scanOK_const r _ _ _ _ (fun _ => rfl) (by decide) (by decide) (by decide)
  rw [if_neg h12]
  by_cases h14 : readChar r = '!'
  · rw [if_pos h14]
    by_cases h15 : readChar (bump r) = '='
    · rw [if_pos h15]
      exact scanOK_const r _ _ _ _ (fun _ => rfl) (by decide) (by decide) (by decide)
    · rw [if_neg h15]
      by_cases h16 : readChar (bump r) = '~'
      · rw [if_pos h16]
        exact scanOK_const r _ _ _ _ (fun _ => rfl) (by decide) (by decide) (by decide)
      · rw [if_neg h16]
        exact scanOK_const r _ _ _ _ (fun hm => absurd hm (by decide)) (by decide) (by decide) (by decide)
  rw [if_neg h14]
  by_cases h17 : readChar r = '>'
  · rw [if_pos h17]
    by_cases h18 : readChar (bump r) = '='
    · rw [if_pos h18]
      exact scanOK_const r _ _ _ _ (fun _ => rfl) (by decide) (by decide) (by decide)
    · rw [if_neg h18]
      by_cases h19 : readChar (bump r) = '>'
      · rw [if_pos h19]
        exact scanOK_const r _ _ _ _ (fun _ => rfl) (by decide) (by decide) (by decide)
      · rw [if_neg h19]
        exact scanOK_const r _ _ _ _ (fun _ => rfl) (by decide) (by decide) (by decide)
  rw [if_neg h17]
  by_cases h20 : readChar r = '<'
  · rw [if_pos h20]
    by_cases h21 : readChar (bump r) = '='
    · rw [if_pos h21]
      exact scanOK_const r _ _ _ _ (fun _ => rfl) (by decide) (by decide) (by decide)
    · rw [if_neg h21]
      by_cases h22 : readChar (bump r) = '>'
      · rw [if_pos h22]
        exact scanOK_const r _ _ _ _ (fun _ => rfl) (by decide) (by decide) (by decide)
      · rw [if_neg h22]
        by_cases h23 : readChar (bump r) = '<'
        · rw [if_pos h23]
          exact scanOK_const r _ _ _ _ (fun _ => rfl) (by decide) (by decide) (by decide)
        · rw [if_neg h23]
          exact scanOK_const r _ _ _ _ (fun _ => rfl) (by decide) (by decide) (by decide)
  rw [if_neg h20]
  by_cases h24 : readChar r = '('
  · rw [if_pos h24]
    exact scanOK_const r _ _ _ _ (fun _ => rfl) (by decide) (by decide) (by decide)
  rw [if_neg h24]
  by_cases h25 : readChar r = ')'
  · rw [if_pos h25]
    exact scanOK_const r _ _ _ _ (fun _ => rfl) (by decide) (by decide) (by decide)
  rw [if_neg h25]
  by_cases h26 : readChar r = '['
  · rw [if_pos h26]
    exact scanOK_const r _ _ _ _ (fun _ => rfl) (by decide) (by decide) (by decide)
  rw [if_neg h26]
  by_cases h27 : readChar r = ']'
  · rw [if_pos h27]
    exact scanOK_const r _ _ _ _ (fun _ => rfl) (by decide) (by decide) (by decide)
  rw [if_neg h27]
  by_cases h28 : readChar r = '{'
  · rw [if_pos h28]
    exact scanOK_const r _ _ _ _ (fun _ => rfl) (by decide) (by decide) (by decide)
  rw [if_neg h28]
  by_cases h29 : readChar r = '}'
  · rw [if_pos h29]
    exact scanOK_const r _ _ _ _ (fun _ => rfl) (by decide) (by decide) (by decide)
  rw [if_neg h29]
  by_cases h30 : readChar r = ','
  · rw [if_pos h30]
    exact scanOK_const r _ _ _ _ (fun _ => rfl) (by decide) (by decide) (by decide)
  rw [if_neg h30]
  by_cases h31 : readChar r = ';'
  · rw [if_pos h31]
    exact scanOK_const r _ _ _ _ (fun _ => rfl) (by decide) (by decide) (by decide)
  rw [if_neg h31]
  by_cases h32 : readChar r = ':'
  · rw [if_pos h32]
    exact scanOK_const r _ _ _ _ (fun _ => rfl) (by decide) (by decide) (by decide)
  rw [if_neg h32]
  by_cases h33 : readChar r = '^'
  · rw [if_pos h33]
    exact scanOK_const r _ _ _ _ (fun _ => rfl) (by decide) (by decide) (by decide)
  rw [if_neg h33]
  by_cases h34 : readChar r = '|'
  · rw [if_pos h34]
    exact scanOK_const r _ _ _ _ (fun _ => rfl) (by decide) (by decide) (by decide)
  rw [if_neg h34]
  by_cases h35 : readChar r = '&'
  · rw [if_pos h35]
    exact scanOK_const r _ _ _ _ (fun _ => rfl) (by decide) (by decide) (by decide)
  rw [if_neg h35]
  by_cases h36 : readChar r = '%'
  · rw [if_pos h36]
    exact scanOK_const r _ _ _ _ (fun _ => rfl) (by decide) (by decide) (by decide)
  rw [if_neg h36]
  by_cases h37 : readChar r = '$'
  · rw [if_pos h37]
    exact scanOK_const r _ _ _ _ (fun _ => rfl) (by decide) (by decide) (by decide)
  rw [if_neg h37]
  by_cases h38 : readChar r = '#'
  · rw [if_pos h38]
    exact scanOK_const r _ _ _ _ (fun _ => rfl) (by decide) (by decide) (by decide)
  rw [if_neg h38]
  by_cases h39 : readChar r = '@'
  · rw [if_pos h39]
    exact scanOK_const r _ _ _ _ (fun _ => rfl) (by decide) (by decide) (by decide)
  rw [if_neg h39]
  exact scanOK_const r _ _ _ _ (fun hm => absurd hm (by decide)) (by decide) (by decide) (by decide)

/-- A whitespace first rune dispatches Scan to scanWhitespace. -/
theorem Scan_ws_dispatch (kw : KwTable) (r : Reader)
    (h : isWhitespace (readChar r)) : Scan kw r = scanWhitespace (bump r) := by
  unfold Scan
  simp [h]

/-- The sentinel first rune dispatches Scan to the EOF result. -/
theorem Scan_eof_dispatch (kw : KwTable) (r : Reader)
    (h : readChar r = eofRune) :
    Scan kw r = ⟨Tok.EOF, readPos r, "", bump r⟩ := by
  unfold Scan
  simp [isWhitespace, isLetter, isDigit, eofRune_eq, h]

/-- A double-quote first rune dispatches Scan to scanIdent. -/
theorem Scan_quote_dispatch (kw : KwTable) (r : Reader)
    (h : readChar r = '"') : Scan kw r = scanIdent kw r := by
  unfold Scan
  simp [isWhitespace, isLetter, isDigit, eofRune_eq, h]

/-- Letters and the underscore are not whitespace. -/
theorem not_ws_of_letter {c : Char} (h : isLetter c ∨ c = '_') :
    isWhitespace c = false := by
  rcases h with hl | hl
  · simp [isLetter] at hl
    simp [isWhitespace]
    rcases hl with ⟨h1, _⟩ | ⟨h1, _⟩ <;>
      refine ⟨?_, ?_, ?_⟩ <;> rintro rfl <;> exact absurd h1 (by decide)
  · subst hl
    decide

/-- A letter or underscore first rune dispatches Scan to scanIdent. -/
theorem Scan_letter_dispatch (kw : KwTable) (r : Reader)
    (h : isLetter (readChar r) ∨ readChar r = '_') :
    Scan kw r = scanIdent kw r := by
  unfold Scan
  simp [not_ws_of_letter h, h]

/-- Unfolding the whitespace loop at end of stream. -/
theorem scanWhitespaceAux_eof {r : Reader} (h : readChar r = eofRune)
    (buf : String) : scanWhitespaceAux r buf = (buf, bump r) := by
  rw [scanWhitespaceAux.eq_def]
  simp [h]

/-- Unfolding the whitespace loop at a non-whitespace rune. -/
theorem scanWhitespaceAux_stop {r : Reader} (h1 : readChar r ≠ eofRune)
    (h2 : isWhitespace (readChar r) = false) (buf : String) :
    scanWhitespaceAux r buf = (buf, unread (bump r)) := by
  rw [scanWhitespaceAux.eq_def]
  simp [h1, h2]

/-- Unfolding the whitespace loop at a whitespace rune. -/
theorem scanWhitespaceAux_step {r : Reader} (h : isWhitespace (readChar r))
    (buf : String) :
    scanWhitespaceAux r buf
      = scanWhitespaceAux (bump r) (buf.push (readChar r)) := by
  rw [scanWhitespaceAux.eq_def]
  simp [isWhitespace_ne_eof h, h]

/-- The whitespace loop consumes exactly a whitespace run that is stopped
by a non-whitespace, non-sentinel rune. -/
theorem scanWhitespaceAux_run :
    ∀ (ws rest : List Char) (r : Reader) (buf : String),
      (∀ c ∈ ws, isWhitespace c) →
      r.input.drop r.idx = ws ++ rest →
      isWhitespace (rest.headD eofRune) = false →
      rest.headD eofRune ≠ eofRune →
      scanWhitespaceAux r buf = (buf ++ ⟨ws⟩, ⟨r.input, r.idx + ws.length⟩) := by
  intro ws
  induction ws with
  | nil =>
    intro rest r buf _ hdrop hnw hne
    have hrc : readChar r = rest.headD eofRune := by
      unfold readChar
      rw [hdrop]
      rfl
    rw [scanWhitespaceAux_stop (by rw [hrc]; exact hne) (by rw [hrc]; exact hnw)]
    have hb : buf ++ (⟨[]⟩ : String) = buf := strExt (by rw [strData_append]; simp)
    rw [hb, unread_bump]
    simp
  | cons c ws' ih =>
    intro rest r buf hws hdrop hnw hne
    have hc : isWhitespace c := hws c (List.mem_cons_self c ws')
    have hrc : readChar r = c := by
      unfold readChar
      rw [hdrop]
      rfl
    rw [scanWhitespaceAux_step (by rw [hrc]; exact hc), hrc]
    have hdrop' : (bump r).input.drop (bump r).idx = ws' ++ rest :=
      drop_bump hdrop
    rw [ih rest (bump r) (buf.push c)
      (fun d hd => hws d (List.mem_cons_of_mem c hd)) hdrop' hnw hne]
    have hstr : buf.push c ++ (⟨ws'⟩ : String) = buf ++ ⟨c :: ws'⟩ :=
      strExt (by rw [strData_append, strData_push, strData_append]; simp)
    rw [hstr]
    have hn : (bump r).idx + ws'.length = r.idx + (c :: ws').length := by
      simp [bump, List.length_cons]
      omega
    rw [show ((bump r).input : List Char) = r.input from rfl, hn]

/-- The whitespace loop consumes a trailing whitespace run up to the end
of the stream. -/
theorem scanWhitespaceAux_end :
    ∀ (ws : List Char) (r : Reader) (buf : String),
      (∀ c ∈ ws, isWhitespace c) →
      r.input.drop r.idx = ws →
      scanWhitespaceAux r buf
        = (buf ++ ⟨ws⟩, ⟨r.input, r.idx + ws.length + 1⟩) := by
  intro ws
  induction ws with
  | nil =>
    intro r buf _ hdrop
    have hrc : readChar r = eofRune := by
      unfold readChar
      rw [hdrop]
      rfl
    rw [scanWhitespaceAux_eof hrc]
    have hb : buf ++ (⟨[]⟩ : String) = buf := strExt (by rw [strData_append]; simp)
    rw [hb]
    simp [bump]
  | cons c ws' ih =>
    intro r buf hws hdrop
    have hc : isWhitespace c := hws c (List.mem_cons_self c ws')
    have hrc : readChar r = c := by
      unfold readChar
      rw [hdrop]
      rfl
    rw [scanWhitespaceAux_step (by rw [hrc]; exact hc), hrc]
    have hdrop' : (bump r).input.drop (bump r).idx = ws' :=
      drop_bump hdrop
    rw [ih (bump r) (buf.push c)
      (fun d hd => hws d (List.mem_cons_of_mem c hd)) hdrop']
    have hstr : buf.push c ++ (⟨ws'⟩ : String) = buf ++ ⟨c :: ws'⟩ :=
      strExt (by rw [strData_append, strData_push, strData_append]; simp)
    rw [hstr]
    have hn : (bump r).idx + ws'.length + 1 = r.idx + (c :: ws').length + 1 := by
      simp [bump, List.length_cons]
      omega
    rw [show ((bump r).input : List Char) = r.input from rfl, hn]

/-- The data of a one-rune string. -/
theorem strData_singleton (c : Char) : (String.singleton c).data = [c] :=
  rfl

/-- C7: a contiguous whitespace run is coalesced: starting at any reader
position whose unconsumed input begins with a run of whitespace followed
either by end of input or by a non-whitespace rune, Scan returns a single
WS token whose literal is the entire run, the reader is left exactly past
the run, and the next Scan does not return WS. -/
theorem C7_ws_coalesce (r : Reader) (c : Char) (ws rest : List Char)
    (hdrop : r.input.drop r.idx = c :: (ws ++ rest))
    (hc : isWhitespace c)
    (hws : ∀ d ∈ ws, isWhitespace d)
    (hrest : rest = [] ∨ (isWhitespace (rest.headD eofRune) = false
        ∧ rest.headD eofRune ≠ eofRune)) :
    (Scan keywords0 r).tok = Tok.WS
    ∧ (Scan keywords0 r).pos = readPos r
    ∧ (Scan keywords0 r).lit = ⟨c :: ws⟩
    ∧ (Scan keywords0 r).rd.input = r.input
    ∧ readChar (Scan keywords0 r).rd = rest.headD eofRune
    ∧ (Scan keywords0 (Scan keywords0 r).rd).tok ≠ Tok.WS := by
  have hrc : readChar r = c := by
    unfold readChar
    rw [hdrop]
    rfl
  have hwsr : isWhitespace (readChar r) := by rw [hrc]; exact hc
  rw [Scan_ws_dispatch keywords0 r hwsr]
  have hdropb : (bump r).input.drop (bump r).idx = ws ++ rest :=
    drop_bump hdrop
  have hcb : currChar (bump r) = c := by rw [currChar_bump, hrc]
  have hlit : String.singleton (currChar (bump r)) ++ (⟨ws⟩ : String)
      = ⟨c :: ws⟩ := by
    apply strExt
    rw [strData_append, hcb, strData_singleton]
    rfl
  have hpos : currPos (bump r) = readPos r := by
    simp [currPos, bump, readPos]
  rcases hrest with hrest | ⟨hnw, hne⟩
  · subst hrest
    have hdropb' : (bump r).input.drop (bump r).idx = ws := by
      rw [hdropb, List.append_nil]
    have haux := scanWhitespaceAux_end ws (bump r)
      (String.singleton (currChar (bump r))) hws hdropb'
    have hnil : r.input.drop (r.idx + 1 + ws.length) = [] :=
      drop_add ws hdropb
    have hlen := congrArg List.length hnil
    simp only [List.length_drop, List.length_nil] at hlen
    have hsw : scanWhitespace (bump r)
        = ⟨Tok.WS, readPos r, ⟨c :: ws⟩,
           ⟨r.input, r.idx + 1 + ws.length + 1⟩⟩ := by
      simp only [scanWhitespace, haux, hlit, hpos]
      rfl
    have heofs : readChar (⟨r.input, r.idx + 1 + ws.length + 1⟩ : Reader)
        = eofRune := by
      show (List.drop (r.idx + 1 + ws.length + 1) r.input).headD eofRune
        = eofRune
      rw [List.drop_eq_nil_of_le (by omega)]
      rfl
    rw [hsw]
    refine ⟨rfl, rfl, rfl, rfl, heofs, ?_⟩
    rw [Scan_eof_dispatch keywords0 _ heofs]
    intro hX
    dsimp only at hX
    exact absurd hX (by decide)
  · have haux := scanWhitespaceAux_run ws rest (bump r)
      (String.singleton (currChar (bump r))) hws hdropb hnw hne
    have hrest' : r.input.drop (r.idx + 1 + ws.length) = rest :=
      drop_add ws hdropb
    have hsw : scanWhitespace (bump r)
        = ⟨Tok.WS, readPos r, ⟨c :: ws⟩,
           ⟨r.input, r.idx + 1 + ws.length⟩⟩ := by
      simp only [scanWhitespace, haux, hlit, hpos]
      rfl
    have hrd : readChar (⟨r.input, r.idx + 1 + ws.length⟩ : Reader)
        = rest.headD eofRune := by
      show (List.drop (r.idx + 1 + ws.length) r.input).headD eofRune
        = rest.headD eofRune
      rw [hrest']
    rw [hsw]
    refine ⟨rfl, rfl, rfl, rfl, hrd, ?_⟩
    intro hW
    have hcontra := (Scan_master (⟨r.input, r.idx + 1 + ws.length⟩ :
      Reader)).2.2.2 hW
    rw [hrd, hnw] at hcontra
    exact Bool.noConfusion hcontra

/-- Witness for C7 at the run of three spaces followed by the letter b. -/
theorem C7_ws_coalesce_witness :
    (⟨[' ', ' ', ' ', 'b'], 0⟩ : Reader).input.drop 0
        = ' ' :: ([' ', ' '] ++ ['b'])
    ∧ isWhitespace ' ' = true
    ∧ (∀ d ∈ [' ', ' '], isWhitespace d)
    ∧ (isWhitespace ((['b'] : List Char).headD eofRune) = false
        ∧ (['b'] : List Char).headD eofRune ≠ eofRune)
    ∧ ((Scan keywords0 (⟨[' ', ' ', ' ', 'b'], 0⟩ : Reader)).tok = Tok.WS
      ∧ (Scan keywords0 (⟨[' ', ' ', ' ', 'b'], 0⟩ : Reader)).pos
          = readPos ⟨[' ', ' ', ' ', 'b'], 0⟩
      ∧ (Scan keywords0 (⟨[' ', ' ', ' ', 'b'], 0⟩ : Reader)).lit
          = ⟨' ' :: [' ', ' ']⟩
      ∧ (Scan keywords0 (⟨[' ', ' ', ' ', 'b'], 0⟩ : Reader)).rd.input
          = (⟨[' ', ' ', ' ', 'b'], 0⟩ : Reader).input
      ∧ readChar (Scan keywords0 (⟨[' ', ' ', ' ', 'b'], 0⟩ : Reader)).rd
          = (['b'] : List Char).headD eofRune
      ∧ (Scan keywords0
          (Scan keywords0 (⟨[' ', ' ', ' ', 'b'], 0⟩ : Reader)).rd).tok
            ≠ Tok.WS) :=
  ⟨rfl, rfl, by decide, ⟨by decide, by decide⟩,
   C7_ws_coalesce ⟨[' ', ' ', ' ', 'b'], 0⟩ ' ' [' ', ' '] ['b'] rfl
     (by decide) (by decide) (Or.inr ⟨by decide, by decide⟩)⟩

/-- C8: literal discipline of Scan over the built-in keyword table: every
punctuation, operator, EOF or recognized-keyword token carries the empty
literal, and the numeric kinds (NUMBER, DURATION) always carry a nonempty
literal payload. -/
theorem C8_literal_invariants (r : Reader) :
    ((Scan keywords0 r).tok ∈ emptyLitKinds → (Scan keywords0 r).lit = "")
    ∧ (((Scan keywords0 r).tok = Tok.NUMBER
        ∨ (Scan keywords0 r).tok = Tok.DURATION_VAL) →
       (Scan keywords0 r).lit ≠ "") :=
  ⟨(Scan_master r).1, (Scan_master r).2.1⟩

/-- Witness for C8 at the one-rune input asterisk. -/
theorem C8_literal_invariants_witness :
    ((Scan keywords0 (mkReader "*")).tok ∈ emptyLitKinds
      → (Scan keywords0 (mkReader "*")).lit = "")
    ∧ (((Scan keywords0 (mkReader "*")).tok = Tok.NUMBER
        ∨ (Scan keywords0 (mkReader "*")).tok = Tok.DURATION_VAL) →
       (Scan keywords0 (mkReader "*")).lit ≠ "") :=
  C8_literal_invariants (mkReader "*")

/-- Iterated scanning: the reader state after k further Scan calls. -/
def ScanIter (kw : KwTable) (r : Reader) : Nat → Reader
  | 0 => r
  | k + 1 => (Scan kw (ScanIter kw r k)).rd

/-- A reader past the end of its input reads the sentinel. -/
theorem readChar_eof_of_le {r : Reader} (h : r.input.length ≤ r.idx) :
    readChar r = eofRune := by
  unfold readChar
  rw [List.drop_eq_nil_of_le h]
  rfl

/-- Over sentinel-free input, reading the sentinel means the input is
exhausted. -/
theorem le_idx_of_readChar_eof {r : Reader} (hfree : eofRune ∉ r.input)
    (h : readChar r = eofRune) : r.input.length ≤ r.idx := by
  by_contra hlt
  push_neg at hlt
  have hd := drop_eq_readChar_cons hlt
  rw [h] at hd
  have hmem : eofRune ∈ r.input := by
    have hmem' : eofRune ∈ r.input.drop r.idx := by
      rw [hd]
      exact List.mem_cons_self _ _
    exact List.mem_of_mem_drop hmem'
  exact hfree hmem

/-- C10: once Scan has returned EOF (over input free of the sentinel
rune), every subsequent Scan on the resulting reader state again returns
EOF with empty literal. -/
theorem C10_eof_persists (r : Reader) (hfree : eofRune ∉ r.input)
    (heof : (Scan keywords0 r).tok = Tok.EOF) (k : Nat) :
    (Scan keywords0 (ScanIter keywords0 (Scan keywords0 r).rd k)).tok
        = Tok.EOF
    ∧ (Scan keywords0 (ScanIter keywords0 (Scan keywords0 r).rd k)).lit
        = "" := by
  obtain ⟨hrc, hres⟩ := (Scan_master r).2.2.1 heof
  have hrd : (Scan keywords0 r).rd = bump r := by rw [hres]
  have hlen : r.input.length ≤ r.idx := le_idx_of_readChar_eof hfree hrc
  have hinv : ∀ j,
      (ScanIter keywords0 (Scan keywords0 r).rd j).input = r.input
      ∧ r.input.length ≤ (ScanIter keywords0 (Scan keywords0 r).rd j).idx := by
    intro j
    induction j with
    | zero =>
      rw [show ScanIter keywords0 (Scan keywords0 r).rd 0
        = (Scan keywords0 r).rd from rfl, hrd]
      exact ⟨rfl, by simp [bump]; omega⟩
    | succ j ih =>
      obtain ⟨hin, hle⟩ := ih
      have heofj : readChar (ScanIter keywords0 (Scan keywords0 r).rd j)
          = eofRune := readChar_eof_of_le (by rw [hin]; exact hle)
      have hstep : ScanIter keywords0 (Scan keywords0 r).rd (j + 1)
          = bump (ScanIter keywords0 (Scan keywords0 r).rd j) := by
        show (Scan keywords0 (ScanIter keywords0 (Scan keywords0 r).rd j)).rd
          = _
        rw [Scan_eof_dispatch keywords0 _ heofj]
      rw [hstep]
      exact ⟨hin, by simp [bump]; omega⟩
  obtain ⟨hin, hle⟩ := hinv k
  have heofk : readChar (ScanIter keywords0 (Scan keywords0 r).rd k)
      = eofRune := readChar_eof_of_le (by rw [hin]; exact hle)
  rw [Scan_eof_dispatch keywords0 _ heofk]
  exact ⟨rfl, rfl⟩

/-- Witness for C10 on the empty input, three scans past the first EOF. -/
theorem C10_eof_persists_witness :
    eofRune ∉ (mkReader "").input
    ∧ (Scan keywords0 (mkReader "")).tok = Tok.EOF
    ∧ ((Scan keywords0
          (ScanIter keywords0 (Scan keywords0 (mkReader "")).rd 3)).tok
            = Tok.EOF
       ∧ (Scan keywords0
          (ScanIter keywords0 (Scan keywords0 (mkReader "")).rd 3)).lit
            = "") :=
  ⟨by decide, rfl, C10_eof_persists (mkReader "") (by decide) rfl 3⟩

/-- takeWhile keeps a list all of whose elements satisfy the predicate. -/
theorem takeWhile_all {α : Type} {p : α → Bool} :
    ∀ l : List α, (∀ c ∈ l, p c) → l.takeWhile p = l := by
  intro l
  induction l with
  | nil => intro _; rfl
  | cons c tl ih =>
    intro h
    rw [List.takeWhile_cons_of_pos (h c (List.mem_cons_self c tl))]
    rw [ih (fun d hd => h d (List.mem_cons_of_mem c hd))]

/-- Letters and the underscore are identifier characters. -/
theorem identChar_of_letter {c : Char} (h : isLetter c ∨ c = '_') :
    isIdentChar c := by
  rcases h with h | h
  · simp [isIdentChar, h]
  · subst h
    decide

/-- Identifier characters are not the double quote. -/
theorem identChar_ne_quote {c : Char} (h : isIdentChar c) : c ≠ '"' := by
  intro hc
  subst hc
  exact absurd h (by decide)

/-- The scanIdent loop on an identifier-character run that extends to the
end of the input accumulates the whole run and stops at the sentinel. -/
theorem scanIdentAux_run (pos : Pos) (r : Reader) (buf : String)
    (run : List Char) (hne : run ≠ []) (hall : ∀ c ∈ run, isIdentChar c)
    (hdrop : r.input.drop r.idx = run) :
    scanIdentAux pos r buf
      = .done (buf ++ ⟨run⟩) ⟨r.input, r.idx + run.length + 1⟩ := by
  obtain ⟨c, tl, rfl⟩ := List.exists_cons_of_ne_nil hne
  have hrc : readChar r = c := by
    unfold readChar
    rw [hdrop]
    rfl
  have hcid : isIdentChar c := hall c (List.mem_cons_self c tl)
  have h1 : readChar r ≠ eofRune := by rw [hrc]; exact isIdentChar_ne_eof hcid
  have h2 : readChar r ≠ '"' := by rw [hrc]; exact identChar_ne_quote hcid
  have h3 : isIdentChar (readChar r) := by rw [hrc]; exact hcid
  rw [scanIdentAux.eq_def]
  simp only [if_neg h1, if_neg h2, if_pos h3]
  have hsb : ScanBareIdent (unread (bump r))
      = (⟨c :: tl⟩, ⟨r.input, r.idx + (c :: tl).length⟩) := by
    simp only [unread_bump, ScanBareIdent]
    rw [hdrop, takeWhile_all _ hall]
  rw [hsb]
  have hnil : r.input.drop (r.idx + (c :: tl).length) = [] :=
    drop_add (c :: tl) (by rw [hdrop, List.append_nil])
  have heof2 : readChar (⟨r.input, r.idx + (c :: tl).length⟩ : Reader)
      = eofRune := by
    show (List.drop (r.idx + (c :: tl).length) r.input).headD eofRune
      = eofRune
    rw [hnil]
    rfl
  rw [scanIdentAux.eq_def]
  simp only [if_pos heof2]
  rfl

/-- scanIdent on an identifier-character run extending to the end of the
input: one token spanning the run, a keyword kind with empty literal on a
table hit, IDENT carrying the run otherwise. -/
theorem scanIdent_run (kw : KwTable) (r : Reader) (run : List Char)
    (hne : run ≠ []) (hall : ∀ c ∈ run, isIdentChar c)
    (hdrop : r.input.drop r.idx = run) :
    scanIdent kw r
      = if Lookup kw ⟨run⟩ ≠ Tok.IDENT
        then ⟨Lookup kw ⟨run⟩, readPos r, "",
              ⟨r.input, r.idx + run.length + 1⟩⟩
        else ⟨Tok.IDENT, readPos r, ⟨run⟩,
              ⟨r.input, r.idx + run.length + 1⟩⟩ := by
  have hb : ("" : String) ++ (⟨run⟩ : String) = ⟨run⟩ :=
    strExt (by rw [strData_append]; simp)
  simp only [scanIdent, scanIdentAux_run (readPos r) r "" run hne hall hdrop,
    hb]

/-- C5: for an input that is one run of letters and underscores, Scan
returns a single token spanning the whole run: the keyword kind with empty
literal when the case-insensitive lookup of the run hits the table,
otherwise IDENT carrying the run as literal; the next Scan returns EOF. -/
theorem C5_letter_runs (run : List Char) (hne : run ≠ [])
    (hall : ∀ c ∈ run, isLetter c ∨ c = '_') :
    (Lookup keywords0 ⟨run⟩ ≠ Tok.IDENT →
      Scan keywords0 ⟨run, 0⟩
        = ⟨Lookup keywords0 ⟨run⟩, ⟨0, 0⟩, "", ⟨run, run.length + 1⟩⟩)
    ∧ (Lookup keywords0 ⟨run⟩ = Tok.IDENT →
      Scan keywords0 ⟨run, 0⟩
        = ⟨Tok.IDENT, ⟨0, 0⟩, ⟨run⟩, ⟨run, run.length + 1⟩⟩)
    ∧ (Scan keywords0 (Scan keywords0 ⟨run, 0⟩).rd).tok = Tok.EOF := by
  have hid : ∀ c ∈ run, isIdentChar c :=
    fun c hc => identChar_of_letter (hall c hc)
  obtain ⟨c, tl, rfl⟩ := List.exists_cons_of_ne_nil hne
  have hrc : readChar (⟨c :: tl, 0⟩ : Reader) = c := rfl
  have hhead : isLetter (readChar (⟨c :: tl, 0⟩ : Reader))
      ∨ readChar (⟨c :: tl, 0⟩ : Reader) = '_' := by
    rw [hrc]
    exact hall c (List.mem_cons_self c tl)
  have hdisp := Scan_letter_dispatch keywords0 ⟨c :: tl, 0⟩ hhead
  have hrun := scanIdent_run keywords0 ⟨c :: tl, 0⟩ (c :: tl) hne hid rfl
  rw [hdisp, hrun]
  have hpos : readPos (⟨c :: tl, 0⟩ : Reader) = ⟨0, 0⟩ := rfl
  rw [hpos]
  simp only [Nat.zero_add]
  have heof2 : readChar (⟨c :: tl, (c :: tl).length + 1⟩ : Reader)
      = eofRune := by
    show (List.drop ((c :: tl).length + 1) (c :: tl)).headD eofRune
      = eofRune
    rw [List.drop_eq_nil_of_le (by omega)]
    rfl
  refine ⟨?_, ?_, ?_⟩
  · intro h
    rw [if_pos h]
  · intro h
    rw [if_neg (not_not_intro h)]
  · split
    · dsimp only
      rw [Scan_eof_dispatch keywords0 _ heof2]
    · dsimp only
      rw [Scan_eof_dispatch keywords0 _ heof2]

/-- Witness for C5 at the run OR, a case-insensitive keyword hit. -/
theorem C5_letter_runs_witness :
    (['O', 'R'] : List Char) ≠ []
    ∧ (∀ c ∈ (['O', 'R'] : List Char), isLetter c ∨ c = '_')
    ∧ ((Lookup keywords0 ⟨['O', 'R']⟩ ≠ Tok.IDENT →
        Scan keywords0 ⟨['O', 'R'], 0⟩
          = ⟨Lookup keywords0 ⟨['O', 'R']⟩, ⟨0, 0⟩, "",
             ⟨['O', 'R'], (['O', 'R'] : List Char).length + 1⟩⟩)
      ∧ (Lookup keywords0 ⟨['O', 'R']⟩ = Tok.IDENT →
        Scan keywords0 ⟨['O', 'R'], 0⟩
          = ⟨Tok.IDENT, ⟨0, 0⟩, ⟨['O', 'R']⟩,
             ⟨['O', 'R'], (['O', 'R'] : List Char).length + 1⟩⟩)
      ∧ (Scan keywords0 (Scan keywords0 ⟨['O', 'R'], 0⟩).rd).tok
          = Tok.EOF) :=
  ⟨by decide, by decide, C5_letter_runs ['O', 'R'] (by decide) (by decide)⟩

/-- Appending to the empty string. -/
theorem strEmpty_append (s : String) : ("" : String) ++ s = s :=
  strExt (by rw [strData_append, strData_empty]; simp)

/-- Unfolding the string-body loop at the closing delimiter. -/
theorem scanStringBody_close {r : Reader} {ending : Char}
    (h : readChar r = ending) (buf : String) :
    scanStringBody r ending buf = (buf, none, bump r) := by
  rw [scanStringBody.eq_def]
  simp [h]

/-- Unfolding the string-body loop at end of stream. -/
theorem scanStringBody_hiteof {r : Reader} {ending : Char}
    (h1 : readChar r ≠ ending) (h2 : readChar r = eofRune) (buf : String) :
    scanStringBody r ending buf = (buf, some .badString, bump r) := by
  rw [scanStringBody.eq_def]
  have h1' : eofRune ≠ ending := h2 ▸ h1
  simp [h2, h1']

/-- Unfolding the string-body loop at a bad escape. -/
theorem scanStringBody_badesc1 {r : Reader} {ending : Char}
    (h1 : readChar r ≠ ending) (h2 : readChar r ≠ eofRune)
    (h3 : readChar r = '\\')
    (h4 : ¬ (readChar (bump r) = '\'' ∨ readChar (bump r) = '"'))
    (buf : String) :
    scanStringBody r ending buf = (buf, some .badEscape, bump (bump r)) := by
  rw [scanStringBody.eq_def]
  have h1' : ('\\' : Char) ≠ ending := h3 ▸ h1
  have h2' : ('\\' : Char) ≠ eofRune := by decide
  simp [h3, h1', h2', h4]

/-- Unfolding the string-body loop at an ordinary content rune. -/
theorem scanStringBody_step {r : Reader} {ending : Char}
    (h1 : readChar r ≠ ending) (h2 : readChar r ≠ eofRune)
    (h3 : readChar r ≠ '\\') (buf : String) :
    scanStringBody r ending buf
      = scanStringBody (bump r) ending (buf.push (readChar r)) := by
  rw [scanStringBody.eq_def]
  simp [h1, h2, h3]

/-- The string-body loop accumulates plain content up to the closing
delimiter. -/
theorem scanStringBody_content (ending : Char) :
    ∀ (content rest : List Char) (r : Reader) (buf : String),
      (∀ c ∈ content, c ≠ ending ∧ c ≠ eofRune ∧ c ≠ '\\') →
      r.input.drop r.idx = content ++ ending :: rest →
      scanStringBody r ending buf
        = (buf ++ ⟨content⟩, none,
           ⟨r.input, r.idx + content.length + 1⟩) := by
  intro content
  induction content with
  | nil =>
    intro rest r buf _ hdrop
    have hrc : readChar r = ending := by
      unfold readChar
      rw [hdrop]
      rfl
    rw [scanStringBody_close hrc]
    have hb : buf ++ (⟨[]⟩ : String) = buf :=
      strExt (by rw [strData_append]; simp)
    rw [hb]
    simp [bump]
  | cons c ctl ih =>
    intro rest r buf hsafe hdrop
    obtain ⟨hce, hcn, hcb⟩ := hsafe c (List.mem_cons_self c ctl)
    have hrc : readChar r = c := by
      unfold readChar
      rw [hdrop]
      rfl
    rw [scanStringBody_step (by rw [hrc]; exact hce) (by rw [hrc]; exact hcn)
      (by rw [hrc]; exact hcb), hrc]
    rw [ih rest (bump r) (buf.push c)
      (fun d hd => hsafe d (List.mem_cons_of_mem c hd)) (drop_bump hdrop)]
    have hstr : buf.push c ++ (⟨ctl⟩ : String) = buf ++ ⟨c :: ctl⟩ :=
      strExt (by rw [strData_append, strData_push, strData_append]; simp)
    rw [hstr]
    have hn : (bump r).idx + ctl.length + 1 = r.idx + (c :: ctl).length + 1 := by
      simp [bump, List.length_cons]
      omega
    rw [show ((bump r).input : List Char) = r.input from rfl, hn]

/-- The string-body loop on plain content with no closing delimiter before
the end of the stream reports an unterminated literal. -/
theorem scanStringBody_noclose (ending : Char) (hend : ending ≠ eofRune) :
    ∀ (content : List Char) (r : Reader) (buf : String),
      (∀ c ∈ content, c ≠ ending ∧ c ≠ eofRune ∧ c ≠ '\\') →
      r.input.drop r.idx = content →
      scanStringBody r ending buf
        = (buf ++ ⟨content⟩, some .badString,
           ⟨r.input, r.idx + content.length + 1⟩) := by
  intro content
  induction content with
  | nil =>
    intro r buf _ hdrop
    have hrc : readChar r = eofRune := by
      unfold readChar
      rw [hdrop]
      rfl
    have h1 : readChar r ≠ ending := by
      rw [hrc]
      exact fun h => hend h.symm
    rw [scanStringBody_hiteof h1 hrc]
    have hb : buf ++ (⟨[]⟩ : String) = buf :=
      strExt (by rw [strData_append]; simp)
    rw [hb]
    simp [bump]
  | cons c ctl ih =>
    intro r buf hsafe hdrop
    obtain ⟨hce, hcn, hcb⟩ := hsafe c (List.mem_cons_self c ctl)
    have hrc : readChar r = c := by
      unfold readChar
      rw [hdrop]
      rfl
    rw [scanStringBody_step (by rw [hrc]; exact hce) (by rw [hrc]; exact hcn)
      (by rw [hrc]; exact hcb), hrc]
    rw [ih (bump r) (buf.push c)
      (fun d hd => hsafe d (List.mem_cons_of_mem c hd)) (drop_bump hdrop)]
    have hstr : buf.push c ++ (⟨ctl⟩ : String) = buf ++ ⟨c :: ctl⟩ :=
      strExt (by rw [strData_append, strData_push, strData_append]; simp)
    rw [hstr]
    have hn : (bump r).idx + ctl.length + 1 = r.idx + (c :: ctl).length + 1 := by
      simp [bump, List.length_cons]
      omega
    rw [show ((bump r).input : List Char) = r.input from rfl, hn]

/-- The string-body loop on plain content followed by a backslash and an
illegal escape rune reports a bad escape, with the content accumulated so
far as the literal. -/
theorem scanStringBody_escErr (ending : Char) (hend1 : ending ≠ eofRune)
    (hend2 : ending ≠ '\\') :
    ∀ (content : List Char) (e : Char) (rest : List Char) (r : Reader)
      (buf : String),
      (∀ c ∈ content, c ≠ ending ∧ c ≠ eofRune ∧ c ≠ '\\') →
      ¬ (e = '\'' ∨ e = '"') →
      r.input.drop r.idx = content ++ '\\' :: e :: rest →
      scanStringBody r ending buf
        = (buf ++ ⟨content⟩, some .badEscape,
           ⟨r.input, r.idx + content.length + 2⟩) := by
  intro content
  induction content with
  | nil =>
    intro e rest r buf _ he hdrop
    have hrc : readChar r = '\\' := by
      unfold readChar
      rw [hdrop]
      rfl
    have h1 : readChar r ≠ ending := by
      rw [hrc]
      exact fun h => hend2 h.symm
    have h2 : readChar r ≠ eofRune := by rw [hrc]; decide
    have hrb : readChar (bump r) = e := by
      show (r.input.drop (bump r).idx).headD eofRune = e
      rw [drop_bump hdrop]
      rfl
    have h4 : ¬ (readChar (bump r) = '\'' ∨ readChar (bump r) = '"') := by
      rw [hrb]
      exact he
    rw [scanStringBody_badesc1 h1 h2 hrc h4]
    have hb : buf ++ (⟨[]⟩ : String) = buf :=
      strExt (by rw [strData_append]; simp)
    rw [hb]
    simp [bump]
  | cons c ctl ih =>
    intro e rest r buf hsafe he hdrop
    obtain ⟨hce, hcn, hcb⟩ := hsafe c (List.mem_cons_self c ctl)
    have hrc : readChar r = c := by
      unfold readChar
      rw [hdrop]
      rfl
    rw [scanStringBody_step (by rw [hrc]; exact hce) (by rw [hrc]; exact hcn)
      (by rw [hrc]; exact hcb), hrc]
    rw [ih e rest (bump r) (buf.push c)
      (fun d hd => hsafe d (List.mem_cons_of_mem c hd)) he (drop_bump hdrop)]
    have hstr : buf.push c ++ (⟨ctl⟩ : String) = buf ++ ⟨c :: ctl⟩ :=
      strExt (by rw [strData_append, strData_push, strData_append]; simp)
    rw [hstr]
    have hn : (bump r).idx + ctl.length + 2 = r.idx + (c :: ctl).length + 2 := by
      simp [bump, List.length_cons]
      omega
    rw [show ((bump r).input : List Char) = r.input from rfl, hn]

/-- scanString after consuming an opening double quote, on safe content
closed by a matching quote: a STRING result whose literal is the content
with the delimiters stripped. -/
theorem scanString_ok (r : Reader) (content rest : List Char)
    (hq : readChar r = '"')
    (hsafe : ∀ c ∈ content, c ≠ '"' ∧ c ≠ eofRune ∧ c ≠ '\\')
    (hdrop : r.input.drop (r.idx + 1) = content ++ '"' :: rest) :
    scanString (bump r)
      = ⟨Tok.STRING, currPos r, ⟨content⟩,
         ⟨r.input, r.idx + 1 + content.length + 1⟩⟩ := by
  have hbody : scanStringBody (bump r) '"' ""
      = ("" ++ ⟨content⟩, none,
         ⟨r.input, r.idx + 1 + content.length + 1⟩) :=
    scanStringBody_content '"' content rest (bump r) "" hsafe hdrop
  have hSS : ScanString r
      = ("" ++ ⟨content⟩, none,
         ⟨r.input, r.idx + 1 + content.length + 1⟩) := by
    simp only [ScanString, hq]
    rw [if_neg (by decide)]
    exact hbody
  simp only [scanString, unread_bump, hSS, strEmpty_append]

/-- scanString after an opening double quote with no closing quote before
the end of the stream: BADSTRING carrying the accumulated content. -/
theorem scanString_unterminated (r : Reader) (content : List Char)
    (hq : readChar r = '"')
    (hsafe : ∀ c ∈ content, c ≠ '"' ∧ c ≠ eofRune ∧ c ≠ '\\')
    (hdrop : r.input.drop (r.idx + 1) = content) :
    scanString (bump r)
      = ⟨Tok.BADSTRING, currPos r, ⟨content⟩,
         ⟨r.input, r.idx + 1 + content.length + 1⟩⟩ := by
  have hbody : scanStringBody (bump r) '"' ""
      = ("" ++ ⟨content⟩, some .badString,
         ⟨r.input, r.idx + 1 + content.length + 1⟩) :=
    scanStringBody_noclose '"' (by decide) content (bump r) "" hsafe hdrop
  have hSS : ScanString r
      = ("" ++ ⟨content⟩, some .badString,
         ⟨r.input, r.idx + 1 + content.length + 1⟩) := by
    simp only [ScanString, hq]
    rw [if_neg (by decide)]
    exact hbody
  simp only [scanString, unread_bump, hSS, strEmpty_append]

/-- scanString after an opening double quote, on safe content followed by
a backslash and an illegal escape rune: BADESCAPE carrying the content
accumulated before the escape. -/
theorem scanString_badescape (r : Reader) (content : List Char) (e : Char)
    (rest : List Char) (hq : readChar r = '"')
    (hsafe : ∀ c ∈ content, c ≠ '"' ∧ c ≠ eofRune ∧ c ≠ '\\')
    (he : ¬ (e = '\'' ∨ e = '"'))
    (hdrop : r.input.drop (r.idx + 1) = content ++ '\\' :: e :: rest) :
    scanString (bump r)
      = ⟨Tok.BADESCAPE,
         currPos (⟨r.input, r.idx + 1 + content.length + 2⟩ : Reader),
         ⟨content⟩, ⟨r.input, r.idx + 1 + content.length + 2⟩⟩ := by
  have hbody : scanStringBody (bump r) '"' ""
      = ("" ++ ⟨content⟩, some .badEscape,
         ⟨r.input, r.idx + 1 + content.length + 2⟩) :=
    scanStringBody_escErr '"' (by decide) (by decide) content e rest (bump r)
      "" hsafe he hdrop
  have hSS : ScanString r
      = ("" ++ ⟨content⟩, some .badEscape,
         ⟨r.input, r.idx + 1 + content.length + 2⟩) := by
    simp only [ScanString, hq]
    rw [if_neg (by decide)]
    exact hbody
  simp only [scanString, unread_bump, hSS, strEmpty_append]

/-- Unfolding the scanIdent loop at a double quote: delegate to string
scanning, propagating failures verbatim and reinterpreting a success as an
IDENT. -/
theorem scanIdentAux_quote (pos : Pos) (r : Reader) (buf : String)
    (hq : readChar r = '"') :
    scanIdentAux pos r buf
      = if (scanString (bump r)).tok = Tok.BADSTRING
            ∨ (scanString (bump r)).tok = Tok.BADESCAPE
        then .ret (scanString (bump r))
        else .ret ⟨Tok.IDENT, pos, (scanString (bump r)).lit,
                   (scanString (bump r)).rd⟩ := by
  rw [scanIdentAux.eq_def]
  have h1 : readChar r ≠ eofRune := by rw [hq]; decide
  simp only [if_neg h1, if_pos hq]

/-- scanIdent at a double quote when the string scan succeeds. -/
theorem scanIdent_quote_ok {kw : KwTable} {r : Reader}
    (hq : readChar r = '"')
    (hgood : (scanString (bump r)).tok ≠ Tok.BADSTRING
        ∧ (scanString (bump r)).tok ≠ Tok.BADESCAPE) :
    scanIdent kw r
      = ⟨Tok.IDENT, readPos r, (scanString (bump r)).lit,
         (scanString (bump r)).rd⟩ := by
  simp only [scanIdent, scanIdentAux_quote (readPos r) r "" hq]
  rw [if_neg (by rintro (h | h); exacts [hgood.1 h, hgood.2 h])]

/-- scanIdent at a double quote when the string scan fails: the failure is
returned verbatim. -/
theorem scanIdent_quote_err {kw : KwTable} {r : Reader}
    (hq : readChar r = '"')
    (hbad : (scanString (bump r)).tok = Tok.BADSTRING
        ∨ (scanString (bump r)).tok = Tok.BADESCAPE) :
    scanIdent kw r = scanString (bump r) := by
  simp only [scanIdent, scanIdentAux_quote (readPos r) r "" hq]
  rw [if_pos hbad]

/-- C6: a double quote triggers quoted-identifier scanning: safe content
closed by a matching quote yields IDENT whose literal is the content with
the delimiters stripped; a failed string scan (BADSTRING on an
unterminated literal, BADESCAPE on an illegal escape) is returned
verbatim. -/
theorem C6_quoted_ident (content rest rest2 : List Char) (e : Char)
    (hsafe : ∀ c ∈ content, c ≠ '"' ∧ c ≠ eofRune ∧ c ≠ '\\')
    (he : ¬ (e = '\'' ∨ e = '"')) :
    Scan keywords0 ⟨'"' :: (content ++ '"' :: rest), 0⟩
      = ⟨Tok.IDENT, ⟨0, 0⟩, ⟨content⟩,
         ⟨'"' :: (content ++ '"' :: rest), content.length + 2⟩⟩
    ∧ (∀ r : Reader, readChar r = '"' →
        ((scanString (bump r)).tok = Tok.BADSTRING
          ∨ (scanString (bump r)).tok = Tok.BADESCAPE) →
        Scan keywords0 r = scanString (bump r))
    ∧ ((Scan keywords0 ⟨'"' :: content, 0⟩).tok = Tok.BADSTRING
       ∧ (Scan keywords0 ⟨'"' :: content, 0⟩).lit = ⟨content⟩)
    ∧ ((Scan keywords0 ⟨'"' :: (content ++ '\\' :: e :: rest2), 0⟩).tok
          = Tok.BADESCAPE
       ∧ (Scan keywords0 ⟨'"' :: (content ++ '\\' :: e :: rest2), 0⟩).lit
          = ⟨content⟩) := by
  refine ⟨?_, ?_, ?_, ?_⟩
  · have hq1 : readChar (⟨'"' :: (content ++ '"' :: rest), 0⟩ : Reader)
        = '"' := rfl
    have hok := scanString_ok ⟨'"' :: (content ++ '"' :: rest), 0⟩ content
      rest hq1 hsafe rfl
    have hgood : (scanString (bump (⟨'"' :: (content ++ '"' :: rest), 0⟩ :
          Reader))).tok ≠ Tok.BADSTRING
        ∧ (scanString (bump (⟨'"' :: (content ++ '"' :: rest), 0⟩ :
          Reader))).tok ≠ Tok.BADESCAPE := by
      refine ⟨fun h => ?_, fun h => ?_⟩ <;>
        (rw [hok] at h; dsimp only at h; exact absurd h (by decide))
    rw [Scan_quote_dispatch keywords0 _ hq1, scanIdent_quote_ok hq1 hgood,
      hok]
    dsimp only
    rw [show 0 + 1 + content.length + 1 = content.length + 2 from by omega]
    rfl
  · intro r hq hbad
    rw [Scan_quote_dispatch keywords0 r hq]
    exact scanIdent_quote_err hq hbad
  · have hq3 : readChar (⟨'"' :: content, 0⟩ : Reader) = '"' := rfl
    have hbadstr := scanString_unterminated ⟨'"' :: content, 0⟩ content hq3
      hsafe rfl
    have hbad : (scanString (bump (⟨'"' :: content, 0⟩ : Reader))).tok
        = Tok.BADSTRING := by rw [hbadstr]
    rw [Scan_quote_dispatch keywords0 _ hq3,
      scanIdent_quote_err hq3 (Or.inl hbad), hbadstr]
    exact ⟨rfl, rfl⟩
  · have hq4 : readChar (⟨'"' :: (content ++ '\\' :: e :: rest2), 0⟩ :
        Reader) = '"' := rfl
    have hbades := scanString_badescape
      ⟨'"' :: (content ++ '\\' :: e :: rest2), 0⟩ content e rest2 hq4 hsafe
      he rfl
    have hbad : (scanString (bump (⟨'"' :: (content ++ '\\' :: e :: rest2),
        0⟩ : Reader))).tok = Tok.BADESCAPE := by rw [hbades]
    rw [Scan_quote_dispatch keywords0 _ hq4,
      scanIdent_quote_err hq4 (Or.inr hbad), hbades]
    exact ⟨rfl, rfl⟩

/-- Witness for C6 at the quoted identifier foo bar of the specification
example (with an empty-input tail, and the illegal escape rune n). -/
theorem C6_quoted_ident_witness :
    (∀ c ∈ (['f', 'o', 'o', ' ', 'b', 'a', 'r'] : List Char),
      c ≠ '"' ∧ c ≠ eofRune ∧ c ≠ '\\')
    ∧ ¬ (('n' : Char) = '\'' ∨ ('n' : Char) = '"')
    ∧ (Scan keywords0
        ⟨'"' :: (['f', 'o', 'o', ' ', 'b', 'a', 'r'] ++ '"' :: []), 0⟩
        = ⟨Tok.IDENT, ⟨0, 0⟩, ⟨['f', 'o', 'o', ' ', 'b', 'a', 'r']⟩,
           ⟨'"' :: (['f', 'o', 'o', ' ', 'b', 'a', 'r'] ++ '"' :: []),
            (['f', 'o', 'o', ' ', 'b', 'a', 'r'] : List Char).length + 2⟩⟩
      ∧ (∀ r : Reader, readChar r = '"' →
          ((scanString (bump r)).tok = Tok.BADSTRING
            ∨ (scanString (bump r)).tok = Tok.BADESCAPE) →
          Scan keywords0 r = scanString (bump r))
      ∧ ((Scan keywords0
            ⟨'"' :: ['f', 'o', 'o', ' ', 'b', 'a', 'r'], 0⟩).tok
              = Tok.BADSTRING
         ∧ (Scan keywords0
            ⟨'"' :: ['f', 'o', 'o', ' ', 'b', 'a', 'r'], 0⟩).lit
              = ⟨['f', 'o', 'o', ' ', 'b', 'a', 'r']⟩)
      ∧ ((Scan keywords0
            ⟨'"' :: (['f', 'o', 'o', ' ', 'b', 'a', 'r']
              ++ '\\' :: 'n' :: []), 0⟩).tok = Tok.BADESCAPE
         ∧ (Scan keywords0
            ⟨'"' :: (['f', 'o', 'o', ' ', 'b', 'a', 'r']
              ++ '\\' :: 'n' :: []), 0⟩).lit
              = ⟨['f', 'o', 'o', ' ', 'b', 'a', 'r']⟩)) :=
  ⟨by decide, by decide,
   C6_quoted_ident ['f', 'o', 'o', ' ', 'b', 'a', 'r'] [] [] 'n'
     (by decide) (by decide)⟩

/-- C9: the claim as stated is false.  The token kinds 1000 and 1001 are
disjoint and their display strings x and X are distinct, yet registering
the two one-entry maps in the two orders yields different keyword tables:
both display strings are lower-cased to the same key, the later
registration shadows the earlier one, and scanning x yields whichever kind
was registered last rather than always the kind displayed as x. -/
theorem C9_counterexample :
    (1000 : Token) ≠ (1001 : Token)
    ∧ ("x" : String) ≠ ("X" : String)
    ∧ (Scan (LoadTokenMap [((1001 : Token), "X")]
          (LoadTokenMap [((1000 : Token), "x")] tables0)).keywords
        ⟨['x'], 0⟩).tok = 1001
    ∧ (Scan (LoadTokenMap [((1000 : Token), "x")]
          (LoadTokenMap [((1001 : Token), "X")] tables0)).keywords
        ⟨['x'], 0⟩).tok = 1000 := by
  refine ⟨by decide, by decide, ?_, ?_⟩
  · have h1 : readChar (⟨['x'], 0⟩ : Reader) = 'x' := rfl
    rw [Scan_letter_dispatch _ ⟨['x'], 0⟩ (Or.inl (by rw [h1]; decide)),
      scanIdent_run _ ⟨['x'], 0⟩ ['x'] (by decide) (by decide) rfl]
    decide
  · have h1 : readChar (⟨['x'], 0⟩ : Reader) = 'x' := rfl
    rw [Scan_letter_dispatch _ ⟨['x'], 0⟩ (Or.inl (by rw [h1]; decide)),
      scanIdent_run _ ⟨['x'], 0⟩ ['x'] (by decide) (by decide) rfl]
    decide

/-- C9 (amended): keyword registration is order-independent for maps whose
display strings differ after lower-casing: registering the two one-entry
maps in either order yields pointwise-equal keyword tables, and scanning
the run displayed for the first kind yields that kind in both orders. -/
theorem C9_order_independent (A B : Token) (x : List Char) (y : String)
    (hlower : strToLower ⟨x⟩ ≠ strToLower y)
    (hne : x ≠ []) (hall : ∀ c ∈ x, isLetter c ∨ c = '_')
    (hA : A ≠ Tok.IDENT) :
    (∀ s, (LoadTokenMap [(B, y)]
          (LoadTokenMap [(A, ⟨x⟩)] tables0)).keywords s
        = (LoadTokenMap [(A, ⟨x⟩)]
          (LoadTokenMap [(B, y)] tables0)).keywords s)
    ∧ (Scan (LoadTokenMap [(B, y)]
          (LoadTokenMap [(A, ⟨x⟩)] tables0)).keywords ⟨x, 0⟩).tok = A
    ∧ (Scan (LoadTokenMap [(A, ⟨x⟩)]
          (LoadTokenMap [(B, y)] tables0)).keywords ⟨x, 0⟩).tok = A := by
  have hid : ∀ c ∈ x, isIdentChar c :=
    fun c hc => identChar_of_letter (hall c hc)
  have hL1 : Lookup (LoadTokenMap [(B, y)]
      (LoadTokenMap [(A, ⟨x⟩)] tables0)).keywords ⟨x⟩ = A := by
    unfold Lookup
    simp only [LoadTokenMap, List.foldl]
    rw [if_neg hlower]
    simp
  have hL2 : Lookup (LoadTokenMap [(A, ⟨x⟩)]
      (LoadTokenMap [(B, y)] tables0)).keywords ⟨x⟩ = A := by
    unfold Lookup
    simp only [LoadTokenMap, List.foldl]
    simp
  refine ⟨?_, ?_, ?_⟩
  · intro s
    simp only [LoadTokenMap, List.foldl]
    by_cases h1 : s = strToLower ⟨x⟩ <;> by_cases h2 : s = strToLower y
    · exact absurd (h1.symm.trans h2) hlower
    · simp [h1, h2, hlower]
    · simp [h1, h2, Ne.symm hlower]
    · simp [h1, h2]
  · obtain ⟨c, tl, rfl⟩ := List.exists_cons_of_ne_nil hne
    have hrc : readChar (⟨c :: tl, 0⟩ : Reader) = c := rfl
    have hhead : isLetter (readChar (⟨c :: tl, 0⟩ : Reader))
        ∨ readChar (⟨c :: tl, 0⟩ : Reader) = '_' := by
      rw [hrc]
      exact hall c (List.mem_cons_self c tl)
    rw [Scan_letter_dispatch _ ⟨c :: tl, 0⟩ hhead,
      scanIdent_run _ ⟨c :: tl, 0⟩ (c :: tl) hne hid rfl, hL1,
      if_pos hA]
  · obtain ⟨c, tl, rfl⟩ := List.exists_cons_of_ne_nil hne
    have hrc : readChar (⟨c :: tl, 0⟩ : Reader) = c := rfl
    have hhead : isLetter (readChar (⟨c :: tl, 0⟩ : Reader))
        ∨ readChar (⟨c :: tl, 0⟩ : Reader) = '_' := by
      rw [hrc]
      exact hall c (List.mem_cons_self c tl)
    rw [Scan_letter_dispatch _ ⟨c :: tl, 0⟩ hhead,
      scanIdent_run _ ⟨c :: tl, 0⟩ (c :: tl) hne hid rfl, hL2,
      if_pos hA]

/-- Witness for the amended C9 at kinds 1000 and 1001 with display strings
ab and cd. -/
theorem C9_order_independent_witness :
    strToLower ⟨['a', 'b']⟩ ≠ strToLower "cd"
    ∧ (['a', 'b'] : List Char) ≠ []
    ∧ (∀ c ∈ (['a', 'b'] : List Char), isLetter c ∨ c = '_')
    ∧ (1000 : Token) ≠ Tok.IDENT
    ∧ ((∀ s, (LoadTokenMap [((1001 : Token), "cd")]
          (LoadTokenMap [((1000 : Token), ⟨['a', 'b']⟩)] tables0)).keywords s
        = (LoadTokenMap [((1000 : Token), ⟨['a', 'b']⟩)]
          (LoadTokenMap [((1001 : Token), "cd")] tables0)).keywords s)
      ∧ (Scan (LoadTokenMap [((1001 : Token), "cd")]
          (LoadTokenMap [((1000 : Token), ⟨['a', 'b']⟩)] tables0)).keywords
            ⟨['a', 'b'], 0⟩).tok = 1000
      ∧ (Scan (LoadTokenMap [((1000 : Token), ⟨['a', 'b']⟩)]
          (LoadTokenMap [((1001 : Token), "cd")] tables0)).keywords
            ⟨['a', 'b'], 0⟩).tok = 1000) :=
  ⟨by decide, by decide, by decide, by decide,
   C9_order_independent 1000 1001 ['a', 'b'] "cd" (by decide) (by decide)
     (by decide) (by decide)⟩
